import Mathlib

/-!
# mirror-azure-org-structure: a verification development of `main.go`

The program fetches the flat list of Azure management groups and subscriptions,
appends a synthetic tenant root, builds the parent → children index in two passes
and prints one Terraform resource block per management group.

Go strings are byte sequences; they are modelled as lists of byte values
(`GoString`).  `len(s)` is `List.length`, `s[a:b]` is `List.drop`/`List.take`, and
`+` is `++`.  String constants are written through `ascii`, which gives the bytes
of an ASCII literal.
-/

set_option autoImplicit false

namespace AzureMirror

/-! ## Strings -/

/-- A Go string: its sequence of bytes. -/
abbrev GoString := List Nat

/-- The bytes of an ASCII string literal. -/
def ascii (s : String) : GoString := s.toList.map Char.toNat

/-- Go `strings.HasPrefix(s, p)`. -/
def HasPrefix (s p : GoString) : Bool := p.isPrefixOf s

/-- The scanning loop of Go `strings.Replace(s, old, new, -1)` for a non-empty `old`
(every call site of the source passes a non-empty literal): occurrences of `old` are
found from left to right without overlap and each is replaced by `new`.  The first
argument counts the bytes of a just-matched occurrence that remain to be skipped. -/
def replaceFrom (old new : GoString) : Nat → GoString → GoString
  | _, [] => []
  | skip + 1, _ :: rest => replaceFrom old new skip rest
  | 0, b :: rest =>
    if old.isPrefixOf (b :: rest) then new ++ replaceFrom old new (old.length - 1) rest
    else b :: replaceFrom old new 0 rest

/-- Go `strings.Replace(s, old, new, -1)`. -/
def Replace (s old new : GoString) : GoString := replaceFrom old new 0 s

/-! ### `strings.ToLower` -/

/-- Go `utf8.RuneError`, U+FFFD. -/
def RuneError : Nat := 0xFFFD

/-- A UTF-8 continuation byte. -/
def isCont (b : Nat) : Bool := 0x80 ≤ b && b ≤ 0xBF

/-- Go `utf8.DecodeRuneInString`: the rune at the head of the string and its width in
bytes; a byte that starts no well-formed encoding decodes to `RuneError` of width 1. -/
def decodeRune : GoString → Nat × Nat
  | [] => (RuneError, 0)
  | b0 :: rest =>
    if b0 < 0x80 then (b0, 1)
    else if 0xC2 ≤ b0 && b0 ≤ 0xDF then
      match rest with
      | b1 :: _ =>
        if isCont b1 then ((b0 % 0x20) * 0x40 + b1 % 0x40, 2) else (RuneError, 1)
      | [] => (RuneError, 1)
    else if 0xE0 ≤ b0 && b0 ≤ 0xEF then
      match rest with
      | b1 :: b2 :: _ =>
        if (if b0 = 0xE0 then 0xA0 else 0x80) ≤ b1 && b1 ≤ (if b0 = 0xED then 0x9F else 0xBF)
            && isCont b2 then
          ((b0 % 0x10) * 0x1000 + (b1 % 0x40) * 0x40 + b2 % 0x40, 3)
        else (RuneError, 1)
      | _ => (RuneError, 1)
    else if 0xF0 ≤ b0 && b0 ≤ 0xF4 then
      match rest with
      | b1 :: b2 :: b3 :: _ =>
        if (if b0 = 0xF0 then 0x90 else 0x80) ≤ b1 && b1 ≤ (if b0 = 0xF4 then 0x8F else 0xBF)
            && isCont b2 && isCont b3 then
          ((b0 % 0x08) * 0x40000 + (b1 % 0x40) * 0x1000 + (b2 % 0x40) * 0x40 + b3 % 0x40, 4)
        else (RuneError, 1)
      | _ => (RuneError, 1)
    else (RuneError, 1)

/-- Go `utf8.AppendRune`: the UTF-8 encoding of a rune; surrogates and values above
U+10FFFF are encoded as `RuneError`. -/
def encodeRune (r : Nat) : GoString :=
  if r < 0x80 then [r]
  else if r < 0x800 then [0xC0 + r / 0x40, 0x80 + r % 0x40]
  else if (0xD800 ≤ r && r ≤ 0xDFFF) || 0x10FFFF < r then [0xEF, 0xBF, 0xBD]
  else if r < 0x10000 then [0xE0 + r / 0x1000, 0x80 + (r / 0x40) % 0x40, 0x80 + r % 0x40]
  else [0xF0 + r / 0x40000, 0x80 + (r / 0x1000) % 0x40, 0x80 + (r / 0x40) % 0x40, 0x80 + r % 0x40]

/-- The loop of Go `strings.Map(mapping, s)` for a mapping that never drops a rune:
every decoded rune is mapped and re-encoded.  The first argument counts the remaining
bytes of the rune just decoded. -/
def mapFrom (mapping : Nat → Nat) : Nat → GoString → GoString
  | _, [] => []
  | skip + 1, _ :: rest => mapFrom mapping skip rest
  | 0, b :: rest =>
    encodeRune (mapping (decodeRune (b :: rest)).1)
      ++ mapFrom mapping ((decodeRune (b :: rest)).2 - 1) rest

/-- Go `strings.Map(mapping, s)`. -/
def Map (mapping : Nat → Nat) (s : GoString) : GoString := mapFrom mapping 0 s

/-- Lower-casing of one ASCII byte, `c += 'a' - 'A'` for `'A' ≤ c ≤ 'Z'`. -/
def asciiLower (c : Nat) : Nat := if 65 ≤ c ∧ c ≤ 90 then c + 32 else c

/-- Go `strings.ToLower(s)`: an all-ASCII string is lower-cased byte by byte, any other
string goes through `strings.Map(unicode.ToLower, s)`.  The Unicode case table
`unicode.ToLower` is the parameter `lower`. -/
def ToLower (lower : Nat → Nat) (s : GoString) : GoString :=
  if s.all (fun c => decide (c < 0x80)) then s.map asciiLower else Map lower s

/-- A case table that agrees with `unicode.ToLower` on ASCII and on the two non-ASCII
runes whose lower case is ASCII (U+0130 and U+212A) and leaves every other rune alone;
it is used to evaluate examples. -/
def simpleLower (r : Nat) : Nat :=
  if r < 0x80 then asciiLower r
  else if r = 0x130 then 0x69
  else if r = 0x212A then 0x6B
  else r

/-! ## Sanitisation of ids and display names -/

/-- A node of the fetched hierarchy: `ManagementGroupInfo` with the nested
`Properties.DisplayName` and `Properties.Parent.Id`. -/
structure SubfieldParent where
  Id : GoString
  deriving DecidableEq, Repr

/-- The `properties` object of a node. -/
structure SubfieldProperties where
  DisplayName : GoString
  Parent : SubfieldParent
  deriving DecidableEq, Repr

/-- One management group or subscription. -/
structure ManagementGroupInfo where
  Id : GoString
  Name : GoString
  Properties : SubfieldProperties
  /-- The field `Type` of the source (`Type` is reserved in Lean). -/
  Typ : GoString
  ChildrenGroups : List Nat
  ChildrenSubscriptions : List Nat
  deriving DecidableEq, Repr

/-- The constant `TYPE_MANAGEMENT_GROUPS`. -/
def TYPE_MANAGEMENT_GROUPS : GoString := ascii "Microsoft.Management/managementGroups"

/-- The constant `TYPE_SUBSCRIPTIONS`. -/
def TYPE_SUBSCRIPTIONS : GoString := ascii "Microsoft.Management/managementGroups/subscriptions"

/-- The literal `"/providers/Microsoft.Management/managementGroups/"`. -/
def mgmtGroupsPath : GoString := ascii "/providers/Microsoft.Management/managementGroups/"

/-- The literal `"/subscriptions/"`. -/
def subscriptionsPath : GoString := ascii "/subscriptions/"

/-- The function `formatGroupId` of `main.go`. -/
def formatGroupId (s : GoString) : GoString :=
  let s := Replace s mgmtGroupsPath []
  let s := Replace s subscriptionsPath []
  let s := Replace s (ascii "/") (ascii "__")
  s

/-- The function `getDisplayName` of `main.go`. -/
def getDisplayName (lower : Nat → Nat) (m : ManagementGroupInfo) : GoString :=
  let s := Replace m.Properties.DisplayName (ascii " ") (ascii "_")
  if HasPrefix (ToLower lower s) (ascii "az-ps-") && decide (s.length > 6) then s.drop 6
  else s

/-! ## List formatting -/

/-- The loop of `formatSubscriptionIds`: `s += "\"" + formatGroupId(groupsAndSubs[v].Id) + "\" , "`
for each `v` of the list; `none` is the index-out-of-range panic. -/
def subscriptionIdsLoop (groupsAndSubs : List ManagementGroupInfo) :
    List Nat → GoString → Option GoString
  | [], s => some s
  | v :: list, s =>
    match groupsAndSubs[v]? with
    | none => none
    | some g =>
      subscriptionIdsLoop groupsAndSubs list
        (s ++ (ascii "\"" ++ formatGroupId g.Id ++ ascii "\" , "))

/-- The final `if len(s) > 3 { s = s[0 : len(s)-3] }` of both list formatters. -/
def chopLastComma (s : GoString) : GoString :=
  if s.length > 3 then s.take (s.length - 3) else s

/-- The function `formatSubscriptionIds` of `main.go`. -/
def formatSubscriptionIds (list : List Nat) (groupsAndSubs : List ManagementGroupInfo) :
    Option GoString :=
  (subscriptionIdsLoop groupsAndSubs list []).map chopLastComma

/-- The loop of `formatGroupIdsList`:
`s += "\"" + getDisplayName(groupsAndSubs[v]) + "---" + formatGroupId(groupsAndSubs[v].Id) + "\" , "`. -/
def groupIdsLoop (lower : Nat → Nat) (groupsAndSubs : List ManagementGroupInfo) :
    List Nat → GoString → Option GoString
  | [], s => some s
  | v :: list, s =>
    match groupsAndSubs[v]? with
    | none => none
    | some g =>
      groupIdsLoop lower groupsAndSubs list
        (s ++ (ascii "\"" ++ getDisplayName lower g ++ ascii "---" ++ formatGroupId g.Id
          ++ ascii "\" , "))

/-- The function `formatGroupIdsList` of `main.go`. -/
def formatGroupIdsList (lower : Nat → Nat) (list : List Nat)
    (groupsAndSubs : List ManagementGroupInfo) : Option GoString :=
  (groupIdsLoop lower groupsAndSubs list []).map chopLastComma

/-! ## The tree builder and the renderer (`main`, lines 66 to 118) -/

/-- A Go `map[string]T`: the value stored under each key, `none` for an absent key. -/
abbrev GoMap (α : Type) := GoString → Option α

/-- The assignment `m[k] = v`. -/
def GoMap.set {α : Type} (m : GoMap α) (k : GoString) (v : α) : GoMap α :=
  fun x => if x = k then some v else m x

/-- The read `m[k]` of a map of slices: the nil slice for an absent key. -/
def GoMap.get (m : GoMap (List Nat)) (k : GoString) : List Nat := (m k).getD []

/-- The three maps of `main`. -/
structure TreeMaps where
  idToIndexMap : GoMap Nat
  idToChildGroupsMap : GoMap (List Nat)
  idToChildSubscriptionsMap : GoMap (List Nat)

/-- The synthetic root: `rootGroup` of `main`. -/
def rootGroup (azureTenant : GoString) : ManagementGroupInfo :=
  { Id := mgmtGroupsPath ++ azureTenant
    Name := []
    Properties := { DisplayName := ascii "TENANT_ROOT", Parent := { Id := [] } }
    Typ := TYPE_MANAGEMENT_GROUPS
    ChildrenGroups := []
    ChildrenSubscriptions := [] }

/-- The body of the first loop of `main` (lines 82 to 93) for index `i` and element `v`. -/
def indexStep (i : Nat) (v : ManagementGroupInfo) (m : TreeMaps) : TreeMaps :=
  let m := { m with idToIndexMap := m.idToIndexMap.set v.Id i }
  let pId := v.Properties.Parent.Id
  if pId ≠ [] then
    if v.Typ = TYPE_MANAGEMENT_GROUPS then
      { m with idToChildGroupsMap :=
          m.idToChildGroupsMap.set pId (m.idToChildGroupsMap.get pId ++ [i]) }
    else if v.Typ = TYPE_SUBSCRIPTIONS then
      { m with idToChildSubscriptionsMap :=
          m.idToChildSubscriptionsMap.set pId (m.idToChildSubscriptionsMap.get pId ++ [i]) }
    else m
  else m

/-- The first loop of `main`, `for i, v := range groupsAndSubs`, from index `i` on. -/
def indexLoop : Nat → List ManagementGroupInfo → TreeMaps → TreeMaps
  | _, [], m => m
  | i, v :: vs, m => indexLoop (i + 1) vs (indexStep i v m)

/-- In-place update of the element at index `i` of a slice. -/
def updateAt {α : Type} (f : α → α) : Nat → List α → List α
  | _, [] => []
  | 0, a :: l => f a :: l
  | i + 1, a :: l => a :: updateAt f i l

/-- The text built by the `fmt.Sprintf` call of `main` from its four arguments. -/
def resourceBlock (label name accountIds childGroupIds : GoString) : GoString :=
  ascii "resource \"prismacloud_account_group\" \"" ++ label
    ++ ascii "\" \x7b\n\tname = \"" ++ name
    ++ ascii "\"\n\tdescription = \"Made by Terraform\"\n\taccount_ids = [" ++ accountIds
    ++ ascii "]\n\tchild_group_ids = [" ++ childGroupIds
    ++ ascii "]\n\x7d\n"

/-- The state of the second loop: the table `groupsAndSubs` and what has been printed on
standard output (one entry per `fmt.Print`). -/
structure RenderState where
  groupsAndSubs : List ManagementGroupInfo
  out : List GoString
  deriving DecidableEq, Repr

/-- The body of the second loop of `main` (lines 98 to 116) for index `i`; `none` is a
run-time panic. -/
def renderStep (lower : Nat → Nat) (m : TreeMaps) (i : Nat) (st : RenderState) :
    Option RenderState :=
  match st.groupsAndSubs[i]? with
  | none => none
  | some v =>
    let t := updateAt (fun g => { g with ChildrenGroups := m.idToChildGroupsMap.get v.Id }) i
      st.groupsAndSubs
    let t := updateAt
      (fun g => { g with ChildrenSubscriptions := m.idToChildSubscriptionsMap.get v.Id }) i t
    if v.Typ = TYPE_MANAGEMENT_GROUPS then
      match t[i]? with
      | none => none
      | some gi =>
        match formatSubscriptionIds gi.ChildrenSubscriptions t with
        | none => none
        | some accountIds =>
          match formatGroupIdsList lower gi.ChildrenGroups t with
          | none => none
          | some childGroupIds =>
            some { groupsAndSubs := t
                   out := st.out ++ [resourceBlock
                     (getDisplayName lower v ++ ascii "---" ++ formatGroupId v.Id)
                     (getDisplayName lower v ++ ascii "---" ++ formatGroupId v.Id)
                     accountIds childGroupIds] }
    else some { groupsAndSubs := t, out := st.out }

/-- The second loop of `main`: `n` iterations starting at index `i`. -/
def renderLoop (lower : Nat → Nat) (m : TreeMaps) : Nat → Nat → RenderState → Option RenderState
  | _, 0, st => some st
  | i, n + 1, st =>
    match renderStep lower m i st with
    | none => none
    | some st1 => renderLoop lower m (i + 1) n st1

/-- The table of `main` after `groupsAndSubs = append(groupsAndSubs, rootGroup)`. -/
def nodeTable (azureTenant : GoString) (value : List ManagementGroupInfo) :
    List ManagementGroupInfo :=
  value ++ [rootGroup azureTenant]

/-- The maps of `main` after the first loop. -/
def buildMaps (azureTenant : GoString) (value : List ManagementGroupInfo) : TreeMaps :=
  let groupsAndSubs := nodeTable azureTenant value
  let m : TreeMaps :=
    { idToIndexMap := fun _ => none
      idToChildGroupsMap := fun _ => none
      idToChildSubscriptionsMap := fun _ => none }
  let m := { m with
    idToIndexMap := m.idToIndexMap.set (rootGroup azureTenant).Id (groupsAndSubs.length - 1) }
  indexLoop 0 groupsAndSubs m

/-- Lines 66 to 118 of `main`: from the tenant id and the decoded `r.Value` to the final
table and the blocks printed, in order; `none` is a run-time panic. -/
def treeAndRender (lower : Nat → Nat) (azureTenant : GoString)
    (value : List ManagementGroupInfo) : Option RenderState :=
  let groupsAndSubs := nodeTable azureTenant value
  renderLoop lower (buildMaps azureTenant value) 0 groupsAndSubs.length
    { groupsAndSubs := groupsAndSubs, out := [] }

/-! ## The whole run (`main`, lines 38 to 121) -/

/-- The request that `main` builds: method, URL and the `Authorization` header. -/
structure Request where
  method : GoString
  url : GoString
  authorization : GoString
  deriving DecidableEq, Repr

/-- What `client.Do(req)` followed by `io.ReadAll(resp.Body)` yields. -/
inductive Response where
  | doError
  | readError
  | body (respBytes : GoString)
  deriving DecidableEq, Repr

/-- What the run does not control: the libraries and the network.  `newRequestFails` tells
whether `http.NewRequest` returns an error for a method and a URL, `send` is the answer to
a request, `unmarshal` gives what `json.Unmarshal(respBytes, &r)` leaves in `r.Value` and
whether it returns an error, and `lower` is the case table `unicode.ToLower`. -/
structure World where
  lower : Nat → Nat
  newRequestFails : GoString → GoString → Bool
  send : Request → Response
  unmarshal : GoString → List ManagementGroupInfo × Bool

/-- A line written through the `log` package. -/
inductive LogEntry where
  | missingEnvironment
  | newRequestError
  | doError
  | readError
  | nodeCount (n : Nat)
  deriving DecidableEq, Repr

/-- How a run ends: normally, through `log.Fatal`, or by a run-time crash. -/
inductive Exit where
  | ok
  | fatal
  | crashed
  deriving DecidableEq, Repr

/-- What a run does: the requests sent, the lines logged, the blocks printed on standard
output, and how it ends. -/
structure Run where
  requests : List Request
  log : List LogEntry
  out : List GoString
  exit : Exit
  deriving DecidableEq, Repr

/-- The URL of the request for a tenant. -/
def descendantsUrl (azureTenant : GoString) : GoString :=
  ascii "https://management.azure.com/providers/Microsoft.Management/managementGroups/"
    ++ azureTenant ++ ascii "/descendants?api-version=2021-04-01"

/-- Lines 45 to 118 of `main`: the request, the decoding of the answer (the error of
`json.Unmarshal` is not looked at), the tree builder and the renderer.  A crash of the
second loop is reported without the blocks printed before it. -/
def fetchAndRender (w : World) (azureTenant azureAccessToken : GoString) : Run :=
  if w.newRequestFails (ascii "GET") (descendantsUrl azureTenant) then
    { requests := [], log := [LogEntry.newRequestError], out := [], exit := Exit.fatal }
  else
    let req : Request :=
      { method := ascii "GET"
        url := descendantsUrl azureTenant
        authorization := ascii "Bearer " ++ azureAccessToken }
    match w.send req with
    | Response.doError =>
      { requests := [req], log := [LogEntry.doError], out := [], exit := Exit.fatal }
    | Response.readError =>
      { requests := [req], log := [LogEntry.readError], out := [], exit := Exit.fatal }
    | Response.body respBytes =>
      let value := (w.unmarshal respBytes).1
      match treeAndRender w.lower azureTenant value with
      | none =>
        { requests := [req], log := [LogEntry.nodeCount (value.length + 1)], out := [],
          exit := Exit.crashed }
      | some st =>
        { requests := [req], log := [LogEntry.nodeCount (value.length + 1)], out := st.out,
          exit := Exit.ok }

/-- The function `main` of `main.go`, from the values of the three environment variables
`AZURE_SUBSCRIPTION_ID`, `AZURE_TENANT_ID` and `AZURE_ACCESS_TOKEN`. -/
def main (w : World) (azureSub azureTenant azureAccessToken : GoString) : Run :=
  if azureSub = [] ∨ azureTenant = [] ∨ azureAccessToken = [] then
    { requests := [], log := [LogEntry.missingEnvironment], out := [], exit := Exit.fatal }
  else fetchAndRender w azureTenant azureAccessToken

/-! ## Specification-level notions -/

/-- The string `old` occurs in `s` at some position. -/
def occursIn (old : GoString) : GoString → Bool
  | [] => false
  | b :: rest => old.isPrefixOf (b :: rest) || occursIn old rest

/-- Removal of `p` as a leading prefix: `s` without `p` if `s` starts with `p`, else `s`. -/
def stripLeading (p s : GoString) : GoString :=
  if p.isPrefixOf s then s.drop p.length else s

/-- Every `/` replaced by `__`, byte by byte. -/
def replaceSlashes : GoString → GoString
  | [] => []
  | b :: rest => if b = 47 then 95 :: 95 :: replaceSlashes rest else b :: replaceSlashes rest

/-- The reference sanitisation in the words of the specification: strip the management
group path if it is a leading prefix, strip `/subscriptions/` if it is then a leading
prefix, and replace every remaining `/` by `__`. -/
def formatGroupIdRef (s : GoString) : GoString :=
  replaceSlashes (stripLeading subscriptionsPath (stripLeading mgmtGroupsPath s))

/-- The byte `b` is the byte `p` of a pattern up to letter case: it is `p` itself or, when
`p` is a lower-case letter `a` to `z`, the upper-case letter of `p`. -/
def sameLetterAnyCase (p b : Nat) : Bool :=
  decide (b = p ∨ (97 ≤ p ∧ p ≤ 122 ∧ b + 32 = p))

/-- The string `d` starts with the lower-case pattern `p` in any letter case. -/
def startsWithAnyCase : GoString → GoString → Bool
  | [], _ => true
  | _ :: _, [] => false
  | p :: ps, b :: bs => sameLetterAnyCase p b && startsWithAnyCase ps bs

/-- Every space replaced by `_`, byte by byte. -/
def underscoreSpaces (d : GoString) : GoString := d.map (fun b => if b = 32 then 95 else b)

/-- The indices, in increasing table order, of the nodes of the table that satisfy `P`. -/
def indicesWhere (P : ManagementGroupInfo → Bool) (table : List ManagementGroupInfo) :
    List Nat :=
  (table.enum.filter (fun ic => P ic.2)).map Prod.fst

/-- The node `c` has parent id `id` and type `ty`: `c.parentId == id` and `c.type == ty`. -/
def hasParentAndType (id ty : GoString) (c : ManagementGroupInfo) : Bool :=
  decide (c.Properties.Parent.Id = id ∧ c.Typ = ty)

/-- The node `c` is a child of type `ty` of the node with id `id`: it has a parent (its
parent id is not empty), that parent id is `id`, and its type is `ty`. -/
def isChildOf (id ty : GoString) (c : ManagementGroupInfo) : Bool :=
  decide (c.Properties.Parent.Id ≠ [] ∧ c.Properties.Parent.Id = id ∧ c.Typ = ty)

/-- The node `c` has id `id`. -/
def hasId (id : GoString) (c : ManagementGroupInfo) : Bool := decide (c.Id = id)

/-- The node is of management-group type. -/
def isGroup (c : ManagementGroupInfo) : Bool := decide (c.Typ = TYPE_MANAGEMENT_GROUPS)

/-- The resource label of a group, also its `name` attribute. -/
def resourceName (lower : Nat → Nat) (N : ManagementGroupInfo) : GoString :=
  getDisplayName lower N ++ ascii "---" ++ formatGroupId N.Id

/-- A text between double quotes. -/
def quoted (x : GoString) : GoString := ascii "\"" ++ x ++ ascii "\""

/-- The entry of a subscription in `account_ids`: its sanitised id, quoted. -/
def subscriptionEntry (g : ManagementGroupInfo) : GoString := quoted (formatGroupId g.Id)

/-- The entry of a group in `child_group_ids`: `<display name>---<sanitised id>`, quoted. -/
def groupEntry (lower : Nat → Nat) (g : ManagementGroupInfo) : GoString :=
  quoted (getDisplayName lower g ++ ascii "---" ++ formatGroupId g.Id)

/-- The join of a list of entries with the separator `" , "`. -/
def joinEntries (entries : List GoString) : GoString :=
  List.intercalate (ascii " , ") entries

/-- The block expected for the group `N` of a table: label and name, the entries of the
subscription children of `N` in `account_ids` and the entries of its group children in
`child_group_ids`, both in table order. -/
def blockOf (lower : Nat → Nat) (table : List ManagementGroupInfo) (N : ManagementGroupInfo) :
    GoString :=
  resourceBlock (resourceName lower N) (resourceName lower N)
    (joinEntries ((table.filter (isChildOf N.Id TYPE_SUBSCRIPTIONS)).map subscriptionEntry))
    (joinEntries ((table.filter (isChildOf N.Id TYPE_MANAGEMENT_GROUPS)).map (groupEntry lower)))

/-- The node `v` with the child-index fields that the second loop assigns to it. -/
def withChildren (m : TreeMaps) (v : ManagementGroupInfo) : ManagementGroupInfo :=
  { v with
    ChildrenGroups := m.idToChildGroupsMap.get v.Id
    ChildrenSubscriptions := m.idToChildSubscriptionsMap.get v.Id }

/-! ## Example nodes -/

/-- A node as decoded from a JSON object without any of the known keys. -/
def blankNode : ManagementGroupInfo :=
  { Id := [], Name := [], Properties := { DisplayName := [], Parent := { Id := [] } },
    Typ := [], ChildrenGroups := [], ChildrenSubscriptions := [] }

/-- A management group named `name` and displayed as `display`, child of the node `parent`. -/
def groupNode (name display parent : GoString) : ManagementGroupInfo :=
  { Id := mgmtGroupsPath ++ name, Name := name,
    Properties := { DisplayName := display, Parent := { Id := parent } },
    Typ := TYPE_MANAGEMENT_GROUPS, ChildrenGroups := [], ChildrenSubscriptions := [] }

/-- A subscription with id `/subscriptions/<name>`, child of the node `parent`. -/
def subscriptionNode (name parent : GoString) : ManagementGroupInfo :=
  { Id := subscriptionsPath ++ name, Name := name,
    Properties := { DisplayName := name, Parent := { Id := parent } },
    Typ := TYPE_SUBSCRIPTIONS, ChildrenGroups := [], ChildrenSubscriptions := [] }

/-- A world in which the request is answered by the text `<html>`, which `json.Unmarshal`
rejects with a syntax error, leaving `r.Value` nil. -/
def htmlWorld : World :=
  { lower := simpleLower
    newRequestFails := fun _ _ => false
    send := fun _ => Response.body (ascii "<html>")
    unmarshal := fun _ => ([], true) }

end AzureMirror

namespace AzureMirror

/-! ## Facts about `strings.Replace` -/

theorem mgmtGroupsPath_bytes : mgmtGroupsPath =
    [47, 112, 114, 111, 118, 105, 100, 101, 114, 115, 47, 77, 105, 99, 114, 111, 115, 111, 102,
      116, 46, 77, 97, 110, 97, 103, 101, 109, 101, 110, 116, 47, 109, 97, 110, 97, 103, 101,
      109, 101, 110, 116, 71, 114, 111, 117, 112, 115, 47] := by decide

theorem subscriptionsPath_bytes : subscriptionsPath =
    [47, 115, 117, 98, 115, 99, 114, 105, 112, 116, 105, 111, 110, 115, 47] := by decide

theorem slash_bytes : ascii "/" = [47] := by decide

theorem underscores_bytes : ascii "__" = [95, 95] := by decide

theorem replaceFrom_skip (old new : GoString) (s : GoString) (k : Nat) :
    replaceFrom old new k s = replaceFrom old new 0 (s.drop k) := by
  induction s generalizing k with
  | nil => simp [replaceFrom]
  | cons b rest ih =>
    cases k with
    | zero => simp
    | succ k => simp [replaceFrom, ih k]

theorem occursIn_drop (old s : GoString) (k : Nat) (h : occursIn old s = false) :
    occursIn old (s.drop k) = false := by
  induction s generalizing k with
  | nil => simp [occursIn]
  | cons b rest ih =>
    cases k with
    | zero => simpa using h
    | succ k =>
      simp only [occursIn, Bool.or_eq_false_iff] at h
      simpa using ih k h.2

theorem replaceFrom_of_not_occurs (old new s : GoString) (h : occursIn old s = false) :
    replaceFrom old new 0 s = s := by
  induction s with
  | nil => simp [replaceFrom]
  | cons b rest ih =>
    simp only [occursIn, Bool.or_eq_false_iff] at h
    simp [replaceFrom, h.1, ih h.2]

theorem Replace_of_not_occurs (old new s : GoString) (h : occursIn old s = false) :
    Replace s old new = s :=
  replaceFrom_of_not_occurs old new s h

theorem replaceFrom_zero_cons (old new : GoString) (b : Nat) (rest : GoString) :
    replaceFrom old new 0 (b :: rest) =
      if old.isPrefixOf (b :: rest) then new ++ replaceFrom old new (old.length - 1) rest
      else b :: replaceFrom old new 0 rest := rfl

theorem Replace_append_old (old new s : GoString) (hne : old ≠ []) :
    Replace (old ++ s) old new = new ++ Replace s old new := by
  cases old with
  | nil => exact absurd rfl hne
  | cons a o =>
    have hp : (a :: o).isPrefixOf (a :: (o ++ s)) = true := by
      rw [List.isPrefixOf_iff_prefix]
      exact List.prefix_append (a :: o) s
    show replaceFrom (a :: o) new 0 (a :: (o ++ s)) = new ++ replaceFrom (a :: o) new 0 s
    rw [replaceFrom_zero_cons, if_pos hp, replaceFrom_skip]
    simp

theorem isPrefixOf_false_of_mem (x : Nat) (p s : GoString) (hp : x ∈ p) (hs : x ∉ s) :
    p.isPrefixOf s = false := by
  cases h : p.isPrefixOf s with
  | false => rfl
  | true => exact absurd ((List.isPrefixOf_iff_prefix.mp h).subset hp) hs

theorem occursIn_false_of_mem (x : Nat) (p s : GoString) (hp : x ∈ p) (hs : x ∉ s) :
    occursIn p s = false := by
  induction s with
  | nil => simp [occursIn]
  | cons b rest ih =>
    simp only [occursIn, Bool.or_eq_false_iff]
    exact ⟨isPrefixOf_false_of_mem x p _ hp hs, ih (fun h => hs (List.mem_cons_of_mem _ h))⟩

theorem occursIn_slash (s : GoString) : occursIn (ascii "/") s = false ↔ 47 ∉ s := by
  rw [slash_bytes]
  induction s with
  | nil => simp [occursIn]
  | cons b rest ih =>
    simp only [occursIn, Bool.or_eq_false_iff, ih, List.isPrefixOf_cons₂,
      List.isPrefixOf_nil_left, Bool.and_true, List.mem_cons, not_or]
    constructor
    · rintro ⟨h1, h2⟩
      exact ⟨fun h => by simp [h] at h1, h2⟩
    · rintro ⟨h1, h2⟩
      exact ⟨by simpa using h1, h2⟩

theorem Replace_slash (s : GoString) : Replace s (ascii "/") (ascii "__") = replaceSlashes s := by
  unfold Replace
  rw [slash_bytes, underscores_bytes]
  induction s with
  | nil => simp [replaceFrom, replaceSlashes]
  | cons b rest ih =>
    by_cases hb : b = 47
    · subst hb
      simp [replaceFrom_zero_cons, replaceSlashes, ih]
    · have hb2 : ¬ (47 = b) := fun h => hb h.symm
      simp [replaceFrom_zero_cons, replaceSlashes, hb, hb2, ih]

theorem Replace_eq_stripLeading (old s : GoString) (hne : old ≠ [])
    (h : occursIn old s.tail = false) : Replace s old [] = stripLeading old s := by
  cases s with
  | nil => simp [Replace, replaceFrom, stripLeading]
  | cons b rest =>
    simp only [List.tail_cons] at h
    by_cases hp : old.isPrefixOf (b :: rest) = true
    · have hlen : old.length = (old.length - 1) + 1 := by
        cases old with
        | nil => exact absurd rfl hne
        | cons a o => simp
      simp only [Replace, replaceFrom, hp, if_true, stripLeading, List.nil_append]
      rw [replaceFrom_skip, replaceFrom_of_not_occurs _ _ _ (occursIn_drop _ _ _ h)]
      conv_rhs => rw [hlen, List.drop_succ_cons]
    · simp only [Bool.not_eq_true] at hp
      simp [Replace, replaceFrom, hp, stripLeading, replaceFrom_of_not_occurs _ _ _ h]

theorem formatGroupId_of_no_slash (s : GoString) (h : 47 ∉ s) : formatGroupId s = s := by
  have h1 : occursIn mgmtGroupsPath s = false :=
    occursIn_false_of_mem 47 _ _ (by rw [mgmtGroupsPath_bytes]; decide) h
  have h2 : occursIn subscriptionsPath s = false :=
    occursIn_false_of_mem 47 _ _ (by rw [subscriptionsPath_bytes]; decide) h
  have h3 : occursIn (ascii "/") s = false := (occursIn_slash s).mpr h
  simp only [formatGroupId]
  rw [Replace_of_not_occurs _ _ _ h1, Replace_of_not_occurs _ _ _ h2,
    Replace_of_not_occurs _ _ _ h3]

/-! ## Id sanitisation: C5, C6, C7 -/

/-- C5 (as stated, refuted): on `a/subscriptions/b` the code removes the inner
`/subscriptions/` and returns `ab`, while the reference sanitisation, which strips the two
fixed strings only as leading prefixes, returns `a__subscriptions__b`. -/
theorem formatGroupId_ne_ref_inner_occurrence :
    formatGroupId (ascii "a/subscriptions/b") = ascii "ab" ∧
    formatGroupIdRef (ascii "a/subscriptions/b") = ascii "a__subscriptions__b" ∧
    formatGroupId (ascii "a/subscriptions/b") ≠ formatGroupIdRef (ascii "a/subscriptions/b") := by
  decide

/-- C5 (amended): for every string `s` in which the management-group path occurs nowhere
after position 0 and in which, once that leading path is stripped, `/subscriptions/` occurs
nowhere after position 0, `formatGroupId s` equals the reference sanitisation (strip the two
leading prefixes, then replace every remaining `/` by `__`). -/
theorem formatGroupId_eq_ref (s : GoString)
    (h1 : occursIn mgmtGroupsPath s.tail = false)
    (h2 : occursIn subscriptionsPath (stripLeading mgmtGroupsPath s).tail = false) :
    formatGroupId s = formatGroupIdRef s := by
  simp only [formatGroupId, formatGroupIdRef]
  rw [Replace_eq_stripLeading mgmtGroupsPath s (by rw [mgmtGroupsPath_bytes]; simp) h1,
    Replace_eq_stripLeading subscriptionsPath _ (by rw [subscriptionsPath_bytes]; simp) h2,
    Replace_slash]

/-- Witness of C5 (amended): the id of a subscription nested under a resource path. -/
theorem formatGroupId_eq_ref_witness :
    occursIn mgmtGroupsPath (ascii "/subscriptions/s1/x").tail = false ∧
    occursIn subscriptionsPath
      (stripLeading mgmtGroupsPath (ascii "/subscriptions/s1/x")).tail = false ∧
    formatGroupId (ascii "/subscriptions/s1/x") = formatGroupIdRef (ascii "/subscriptions/s1/x") :=
  ⟨by decide, by decide, formatGroupId_eq_ref (ascii "/subscriptions/s1/x") (by decide) (by decide)⟩

/-- C6: for every name `n` without `/`, `formatGroupId` maps the management-group path
followed by `n` to `n` and `/subscriptions/` followed by `n` to `n`. -/
theorem formatGroupId_strips_known_paths (n : GoString) (h : occursIn (ascii "/") n = false) :
    formatGroupId (mgmtGroupsPath ++ n) = n ∧ formatGroupId (subscriptionsPath ++ n) = n := by
  have hn : 47 ∉ n := (occursIn_slash n).mp h
  have h1 : occursIn mgmtGroupsPath n = false :=
    occursIn_false_of_mem 47 _ _ (by rw [mgmtGroupsPath_bytes]; decide) hn
  have h2 : occursIn subscriptionsPath n = false :=
    occursIn_false_of_mem 47 _ _ (by rw [subscriptionsPath_bytes]; decide) hn
  have hm : mgmtGroupsPath ≠ [] := by rw [mgmtGroupsPath_bytes]; simp
  have hs : subscriptionsPath ≠ [] := by rw [subscriptionsPath_bytes]; simp
  constructor
  · simp only [formatGroupId]
    rw [Replace_append_old _ _ _ hm, Replace_of_not_occurs _ _ _ h1, List.nil_append,
      Replace_of_not_occurs _ _ _ h2, Replace_of_not_occurs _ _ _ h]
  · have hrest : List.isPrefixOf
        [112, 114, 111, 118, 105, 100, 101, 114, 115, 47, 77, 105, 99, 114, 111, 115, 111, 102,
          116, 46, 77, 97, 110, 97, 103, 101, 109, 101, 110, 116, 47, 109, 97, 110, 97, 103, 101,
          109, 101, 110, 116, 71, 114, 111, 117, 112, 115, 47] n = false :=
      isPrefixOf_false_of_mem 47 _ _ (by decide) hn
    have h3 : occursIn mgmtGroupsPath (subscriptionsPath ++ n) = false := by
      rw [mgmtGroupsPath_bytes] at h1 ⊢
      rw [subscriptionsPath_bytes]
      simp [occursIn, List.isPrefixOf_cons₂, hrest, h1]
    simp only [formatGroupId]
    rw [Replace_of_not_occurs _ _ _ h3, Replace_append_old _ _ _ hs,
      Replace_of_not_occurs _ _ _ h2, List.nil_append, Replace_of_not_occurs _ _ _ h]

/-- Witness of C6: the tenant id of the specification, `tenant123`. -/
theorem formatGroupId_strips_known_paths_witness :
    occursIn (ascii "/") (ascii "tenant123") = false ∧
    formatGroupId (mgmtGroupsPath ++ ascii "tenant123") = ascii "tenant123" ∧
    formatGroupId (subscriptionsPath ++ ascii "tenant123") = ascii "tenant123" :=
  ⟨by decide, formatGroupId_strips_known_paths (ascii "tenant123") (by decide)⟩

/-- C7: for every string `s` that contains no `/`, `formatGroupId s = s`. -/
theorem formatGroupId_id_of_no_slash (s : GoString) (h : occursIn (ascii "/") s = false) :
    formatGroupId s = s :=
  formatGroupId_of_no_slash s ((occursIn_slash s).mp h)

/-- Witness of C7: a plain subscription guid fragment. -/
theorem formatGroupId_id_of_no_slash_witness :
    occursIn (ascii "/") (ascii "0a1b-2c3d") = false ∧
    formatGroupId (ascii "0a1b-2c3d") = ascii "0a1b-2c3d" :=
  ⟨by decide, formatGroupId_id_of_no_slash (ascii "0a1b-2c3d") (by decide)⟩

/-! ## Facts about `strings.ToLower` -/

theorem azps_bytes : ascii "az-ps-" = [97, 122, 45, 112, 115, 45] := by decide

theorem Replace_space (d : GoString) :
    Replace d (ascii " ") (ascii "_") = underscoreSpaces d := by
  have h1 : ascii " " = [32] := by decide
  have h2 : ascii "_" = [95] := by decide
  unfold Replace underscoreSpaces
  rw [h1, h2]
  induction d with
  | nil => simp [replaceFrom]
  | cons b rest ih =>
    by_cases hb : b = 32
    · subst hb
      simp [replaceFrom_zero_cons, ih]
    · have hb2 : ¬ (32 = b) := fun h => hb h.symm
      simp [replaceFrom_zero_cons, hb, hb2, ih]

theorem decodeRune_ascii (b : Nat) (rest : GoString) (hb : b < 128) :
    decodeRune (b :: rest) = (b, 1) := by
  simp [decodeRune, hb]

theorem decodeRune_non_ascii (b : Nat) (rest : GoString) (hb : 128 ≤ b) :
    128 ≤ (decodeRune (b :: rest)).1 := by
  have hnb : ¬ b < 128 := by omega
  unfold decodeRune
  simp only [hnb, if_false, RuneError, isCont, Bool.and_eq_true, decide_eq_true_eq]
  split_ifs
  all_goals (try split)
  all_goals (try split_ifs)
  all_goals first
    | ((show 128 ≤ (65533 : Nat)); decide)
    | (simp only []; omega)

theorem asciiLower_lt (b : Nat) (hb : b < 128) : asciiLower b < 128 := by
  unfold asciiLower
  split_ifs <;> omega

theorem asciiLower_of_ge (b : Nat) (hb : 128 ≤ b) : asciiLower b = b := by
  unfold asciiLower
  split_ifs <;> omega

theorem encodeRune_ascii (r : Nat) (hr : r < 128) : encodeRune r = [r] := by
  simp [encodeRune, hr]

theorem encodeRune_non_ascii (r : Nat) (hr : 128 ≤ r) :
    ∃ x xs, encodeRune r = x :: xs ∧ 128 ≤ x := by
  have hnr : ¬ r < 128 := by omega
  unfold encodeRune
  simp only [hnr, if_false]
  split_ifs
  · exact ⟨_, _, rfl, by omega⟩
  · exact ⟨_, _, rfl, by omega⟩
  · exact ⟨_, _, rfl, by omega⟩
  · exact ⟨_, _, rfl, by omega⟩

theorem mapFrom_zero_cons (mapping : Nat → Nat) (b : Nat) (rest : GoString) :
    mapFrom mapping 0 (b :: rest) =
      encodeRune (mapping (decodeRune (b :: rest)).1)
        ++ mapFrom mapping ((decodeRune (b :: rest)).2 - 1) rest := rfl

/-- Whether a lower-case ASCII pattern is a prefix of the lower-cased string only depends
on the bytes of the string, lower-cased as ASCII, as long as the case table maps no
non-ASCII rune to a byte of the pattern. -/
theorem isPrefixOf_mapFrom (lower : Nat → Nat)
    (hascii : ∀ r, r < 128 → lower r = asciiLower r) (p : GoString)
    (hp : ∀ c ∈ p, c < 128 ∧ ∀ r, 128 ≤ r → lower r ≠ c) (s : GoString) :
    p.isPrefixOf (mapFrom lower 0 s) = p.isPrefixOf (s.map asciiLower) := by
  induction p generalizing s with
  | nil => simp
  | cons c p ih =>
    have hc := hp c (List.mem_cons_self _ _)
    have ih2 := ih (fun c hc => hp c (List.mem_cons_of_mem _ hc))
    cases s with
    | nil => simp [mapFrom]
    | cons b rest =>
      rw [mapFrom_zero_cons]
      by_cases hb : b < 128
      · rw [decodeRune_ascii b rest hb, hascii b hb, encodeRune_ascii _ (asciiLower_lt b hb)]
        simp [List.isPrefixOf_cons₂, ih2 rest]
      · have hb2 : 128 ≤ b := by omega
        have hr := decodeRune_non_ascii b rest hb2
        have hne : (c == b) = false := by
          have : c ≠ b := by omega
          simpa using this
        rw [List.map_cons, asciiLower_of_ge b hb2, List.isPrefixOf_cons₂, hne, Bool.false_and]
        by_cases hl : lower (decodeRune (b :: rest)).1 < 128
        · rw [encodeRune_ascii _ hl]
          have hne2 : (c == lower (decodeRune (b :: rest)).1) = false := by
            have := hc.2 _ hr
            simpa using fun h => this h.symm
          simp [List.isPrefixOf_cons₂, hne2]
        · obtain ⟨x, xs, hx, hx2⟩ := encodeRune_non_ascii _ (Nat.le_of_not_lt hl)
          rw [hx]
          have hne2 : (c == x) = false := by
            have : c ≠ x := by omega
            simpa using this
          simp [List.isPrefixOf_cons₂, hne2]

theorem isPrefixOf_ToLower (lower : Nat → Nat)
    (hascii : ∀ r, r < 128 → lower r = asciiLower r) (p : GoString)
    (hp : ∀ c ∈ p, c < 128 ∧ ∀ r, 128 ≤ r → lower r ≠ c) (s : GoString) :
    p.isPrefixOf (ToLower lower s) = p.isPrefixOf (s.map asciiLower) := by
  unfold ToLower Map
  split_ifs
  · rfl
  · exact isPrefixOf_mapFrom lower hascii p hp s

theorem isPrefixOf_map_congr (g g2 : Nat → Nat) (p : GoString)
    (h : ∀ c ∈ p, ∀ b, g b = c ↔ g2 b = c) (s : GoString) :
    p.isPrefixOf (s.map g) = p.isPrefixOf (s.map g2) := by
  induction p generalizing s with
  | nil => simp
  | cons c p ih =>
    cases s with
    | nil => simp
    | cons b rest =>
      have hb := h c (List.mem_cons_self _ _) b
      have hbb : (c == g b) = (c == g2 b) := by
        rw [Bool.eq_iff_iff]
        simp only [beq_iff_eq]
        constructor
        · intro e; exact (hb.mp e.symm).symm
        · intro e; exact (hb.mpr e.symm).symm
      simp only [List.map_cons, List.isPrefixOf_cons₂, hbb,
        ih (fun c hc => h c (List.mem_cons_of_mem _ hc)) rest]

theorem isPrefixOf_map_iff_take (g : Nat → Nat) (p s : GoString) :
    p.isPrefixOf (s.map g) = true ↔ (s.take p.length).map g = p := by
  rw [List.isPrefixOf_iff_prefix, List.prefix_iff_eq_take, List.map_take]
  exact eq_comm

/-! ## Display-name sanitisation: C8 -/

theorem asciiLower_eq_iff_sameLetter (c b : Nat) (hc : ¬ (65 ≤ c ∧ c ≤ 90)) :
    asciiLower b = c ↔ sameLetterAnyCase c b = true := by
  unfold asciiLower sameLetterAnyCase
  simp only [decide_eq_true_eq]
  split_ifs <;> omega

/-- Lower-casing a string byte by byte and looking for a pattern without upper-case letters
at its head is looking for the pattern in any letter case. -/
theorem isPrefixOf_map_asciiLower (p : GoString) (hp : ∀ c ∈ p, ¬ (65 ≤ c ∧ c ≤ 90))
    (d : GoString) : p.isPrefixOf (d.map asciiLower) = startsWithAnyCase p d := by
  induction p generalizing d with
  | nil => cases d <;> simp [startsWithAnyCase]
  | cons c p ih =>
    cases d with
    | nil => simp [startsWithAnyCase]
    | cons b rest =>
      have hb := asciiLower_eq_iff_sameLetter c b (hp c (List.mem_cons_self _ _))
      have hbb : (c == asciiLower b) = sameLetterAnyCase c b := by
        rw [Bool.eq_iff_iff]
        simp only [beq_iff_eq]
        constructor
        · intro e; exact hb.mp e.symm
        · intro e; exact (hb.mpr e).symm
      simp only [List.map_cons, List.isPrefixOf_cons₂, startsWithAnyCase, hbb,
        ih (fun c hc => hp c (List.mem_cons_of_mem _ hc)) rest]

/-- C8: let `u` be the display name `d` with every space replaced by `_`.  If `d` starts
with `az-ps-` in any letter case (each of its first six bytes is the byte of `az-ps-` at
that place or the upper-case letter of it) and is longer than 6 bytes, `getDisplayName`
returns `u` without its first 6 bytes; otherwise it returns `u`.  The Unicode case table is
any map that lower-cases ASCII as ASCII and sends no non-ASCII rune to a byte of `az-ps-`. -/
theorem getDisplayName_spec (lower : Nat → Nat)
    (hascii : ∀ r, r < 128 → lower r = asciiLower r)
    (hnon : ∀ r, 128 ≤ r → lower r ∉ ascii "az-ps-")
    (m : ManagementGroupInfo) :
    getDisplayName lower m =
      if startsWithAnyCase (ascii "az-ps-") m.Properties.DisplayName = true
          ∧ 6 < m.Properties.DisplayName.length
      then (underscoreSpaces m.Properties.DisplayName).drop 6
      else underscoreSpaces m.Properties.DisplayName := by
  have hp : ∀ c ∈ ascii "az-ps-", c < 128 ∧ ∀ r, 128 ≤ r → lower r ≠ c := by
    intro c hc
    refine ⟨?_, fun r hr e => hnon r hr (e ▸ hc)⟩
    rw [azps_bytes] at hc
    simp only [List.mem_cons, List.mem_singleton, List.not_mem_nil, or_false] at hc
    omega
  have hnoUpper : ∀ c ∈ ascii "az-ps-", ¬ (65 ≤ c ∧ c ≤ 90) := by
    intro c hc
    rw [azps_bytes] at hc
    simp only [List.mem_cons, List.mem_singleton, List.not_mem_nil, or_false] at hc
    omega
  have hcongr : ∀ c ∈ ascii "az-ps-", ∀ b,
      asciiLower (if b = 32 then 95 else b) = c ↔ asciiLower b = c := by
    intro c hc b
    rw [azps_bytes] at hc
    simp only [List.mem_cons, List.mem_singleton, List.not_mem_nil, or_false] at hc
    unfold asciiLower
    split_ifs <;> omega
  have hpre : HasPrefix (ToLower lower (underscoreSpaces m.Properties.DisplayName))
      (ascii "az-ps-") = startsWithAnyCase (ascii "az-ps-") m.Properties.DisplayName := by
    unfold HasPrefix
    rw [isPrefixOf_ToLower lower hascii _ hp]
    unfold underscoreSpaces
    rw [List.map_map,
      isPrefixOf_map_congr (asciiLower ∘ fun b => if b = 32 then 95 else b) asciiLower
        (ascii "az-ps-") (fun c hc b => hcongr c hc b),
      isPrefixOf_map_asciiLower _ hnoUpper]
  have hlen : (underscoreSpaces m.Properties.DisplayName).length
      = m.Properties.DisplayName.length := by simp [underscoreSpaces]
  simp only [getDisplayName, Replace_space, Bool.and_eq_true, decide_eq_true_eq, hpre, hlen,
    gt_iff_lt]

theorem simpleLower_ascii (r : Nat) (hr : r < 128) : simpleLower r = asciiLower r := by
  simp [simpleLower, hr]

theorem simpleLower_non_ascii (r : Nat) (hr : 128 ≤ r) : simpleLower r ∉ ascii "az-ps-" := by
  rw [azps_bytes]
  have hnr : ¬ r < 128 := by omega
  simp only [simpleLower, hnr, if_false]
  split_ifs <;> simp
  omega

/-- Witness of C8: the display names `AZ-PS-Finance Team` (upper-case prefix),
`Az-pS-Finance Team` (mixed case) and `az-ps-Finance Team` are rendered as `Finance_Team`,
as is `Finance Team`, which has no prefix; the bare prefix `AZ-PS-` is kept, and so is the
whole of `az_ps-Finance Team`, whose first six bytes are not the prefix. -/
theorem getDisplayName_spec_witness :
    getDisplayName simpleLower
        { Id := [], Name := [],
          Properties := { DisplayName := ascii "AZ-PS-Finance Team", Parent := { Id := [] } },
          Typ := [], ChildrenGroups := [], ChildrenSubscriptions := [] }
      = ascii "Finance_Team" ∧
    getDisplayName simpleLower
        { Id := [], Name := [],
          Properties := { DisplayName := ascii "Az-pS-Finance Team", Parent := { Id := [] } },
          Typ := [], ChildrenGroups := [], ChildrenSubscriptions := [] }
      = ascii "Finance_Team" ∧
    getDisplayName simpleLower
        { Id := [], Name := [],
          Properties := { DisplayName := ascii "az-ps-Finance Team", Parent := { Id := [] } },
          Typ := [], ChildrenGroups := [], ChildrenSubscriptions := [] }
      = ascii "Finance_Team" ∧
    getDisplayName simpleLower
        { Id := [], Name := [],
          Properties := { DisplayName := ascii "Finance Team", Parent := { Id := [] } },
          Typ := [], ChildrenGroups := [], ChildrenSubscriptions := [] }
      = ascii "Finance_Team" ∧
    getDisplayName simpleLower
        { Id := [], Name := [],
          Properties := { DisplayName := ascii "AZ-PS-", Parent := { Id := [] } },
          Typ := [], ChildrenGroups := [], ChildrenSubscriptions := [] }
      = ascii "AZ-PS-" ∧
    getDisplayName simpleLower
        { Id := [], Name := [],
          Properties := { DisplayName := ascii "az_ps-Finance Team", Parent := { Id := [] } },
          Typ := [], ChildrenGroups := [], ChildrenSubscriptions := [] }
      = ascii "az_ps-Finance_Team" := by
  refine ⟨?_, ?_, ?_, ?_, ?_, ?_⟩ <;>
    (rw [getDisplayName_spec simpleLower simpleLower_ascii simpleLower_non_ascii]; decide)

/-! ## List formatting: C9, C10 -/

theorem flatten_map_append_sep (sep : GoString) (qs : List GoString) (hne : qs ≠ []) :
    (qs.map (fun q => q ++ sep)).flatten = List.intercalate sep qs ++ sep := by
  induction qs with
  | nil => exact absurd rfl hne
  | cons q rest ih =>
    cases rest with
    | nil => simp [List.intercalate]
    | cons q2 rest2 =>
      have ih2 := ih (by simp)
      simp only [List.intercalate] at ih2 ⊢
      rw [List.map_cons, List.flatten_cons, ih2, List.intersperse_cons₂, List.flatten_cons,
        List.flatten_cons]
      simp [List.append_assoc]

theorem length_intercalate_pos (sep : GoString) (qs : List GoString) (hne : qs ≠ [])
    (hq : ∀ q ∈ qs, q ≠ []) : 0 < (List.intercalate sep qs).length := by
  cases qs with
  | nil => exact absurd rfl hne
  | cons q rest =>
    have hq1 : 0 < q.length := List.length_pos.mpr (hq q (List.mem_cons_self _ _))
    cases rest with
    | nil => simpa [List.intercalate] using hq1
    | cons q2 rest2 =>
      simp only [List.intercalate, List.intersperse_cons₂, List.flatten_cons, List.length_append]
      omega

/-- The trailing trim of the list formatters removes exactly the last separator. -/
theorem chopLastComma_flatten (qs : List GoString) (hq : ∀ q ∈ qs, q ≠ []) :
    chopLastComma ((qs.map (fun q => q ++ ascii " , ")).flatten) = joinEntries qs := by
  cases hqs : qs with
  | nil => simp [chopLastComma, joinEntries, List.intercalate]
  | cons q rest =>
    have hne : qs ≠ [] := by simp [hqs]
    have hlen := length_intercalate_pos (ascii " , ") qs hne hq
    have hsep : (ascii " , ").length = 3 := by decide
    rw [← hqs, flatten_map_append_sep _ _ hne]
    unfold chopLastComma joinEntries
    rw [List.length_append, hsep, if_pos (by omega)]
    simp

theorem quoted_ne_nil (x : GoString) : quoted x ≠ [] := by
  have h : ascii "\"" = [34] := by decide
  simp [quoted, h]

theorem subscription_piece (g : ManagementGroupInfo) :
    ascii "\"" ++ formatGroupId g.Id ++ ascii "\" , " = subscriptionEntry g ++ ascii " , " := by
  have h : ascii "\" , " = ascii "\"" ++ ascii " , " := by decide
  simp [subscriptionEntry, quoted, h, List.append_assoc]

theorem group_piece (lower : Nat → Nat) (g : ManagementGroupInfo) :
    ascii "\"" ++ getDisplayName lower g ++ ascii "---" ++ formatGroupId g.Id ++ ascii "\" , "
      = groupEntry lower g ++ ascii " , " := by
  have h : ascii "\" , " = ascii "\"" ++ ascii " , " := by decide
  simp [groupEntry, quoted, h, List.append_assoc]

theorem subscriptionIdsLoop_eq (t : List ManagementGroupInfo) (list : List Nat) (s : GoString)
    (h : ∀ v ∈ list, v < t.length) :
    subscriptionIdsLoop t list s = some (s ++
      (((list.filterMap (fun v => t[v]?)).map subscriptionEntry).map
        (fun q => q ++ ascii " , ")).flatten) := by
  induction list generalizing s with
  | nil => simp [subscriptionIdsLoop]
  | cons v rest ih =>
    have hv : v < t.length := h v (List.mem_cons_self _ _)
    have hget : t[v]? = some t[v] := List.getElem?_eq_getElem hv
    simp only [subscriptionIdsLoop, hget, List.filterMap_cons, List.map_cons, List.flatten_cons]
    rw [ih _ (fun w hw => h w (List.mem_cons_of_mem _ hw)), subscription_piece]
    simp [List.append_assoc]

theorem groupIdsLoop_eq (lower : Nat → Nat) (t : List ManagementGroupInfo) (list : List Nat)
    (s : GoString) (h : ∀ v ∈ list, v < t.length) :
    groupIdsLoop lower t list s = some (s ++
      (((list.filterMap (fun v => t[v]?)).map (groupEntry lower)).map
        (fun q => q ++ ascii " , ")).flatten) := by
  induction list generalizing s with
  | nil => simp [groupIdsLoop]
  | cons v rest ih =>
    have hv : v < t.length := h v (List.mem_cons_self _ _)
    have hget : t[v]? = some t[v] := List.getElem?_eq_getElem hv
    simp only [groupIdsLoop, hget, List.filterMap_cons, List.map_cons, List.flatten_cons]
    rw [ih _ (fun w hw => h w (List.mem_cons_of_mem _ hw)), group_piece]
    simp [List.append_assoc]

theorem formatSubscriptionIds_eq (t : List ManagementGroupInfo) (list : List Nat)
    (h : ∀ v ∈ list, v < t.length) :
    formatSubscriptionIds list t =
      some (joinEntries ((list.filterMap (fun v => t[v]?)).map subscriptionEntry)) := by
  unfold formatSubscriptionIds
  rw [subscriptionIdsLoop_eq t list [] h, Option.map_some', List.nil_append,
    chopLastComma_flatten]
  intro q hq
  obtain ⟨g, _, rfl⟩ := List.mem_map.mp hq
  exact quoted_ne_nil _

theorem formatGroupIdsList_eq (lower : Nat → Nat) (t : List ManagementGroupInfo)
    (list : List Nat) (h : ∀ v ∈ list, v < t.length) :
    formatGroupIdsList lower list t =
      some (joinEntries ((list.filterMap (fun v => t[v]?)).map (groupEntry lower))) := by
  unfold formatGroupIdsList
  rw [groupIdsLoop_eq lower t list [] h, Option.map_some', List.nil_append,
    chopLastComma_flatten]
  intro q hq
  obtain ⟨g, _, rfl⟩ := List.mem_map.mp hq
  exact quoted_ne_nil _

theorem filterMap_getElem_fin (t : List ManagementGroupInfo) (idx : List (Fin t.length)) :
    (idx.map Fin.val).filterMap (fun v => t[v]?) = idx.map (fun i => t.get i) := by
  induction idx with
  | nil => rfl
  | cons i rest ih =>
    simp only [List.map_cons, List.filterMap_cons, List.getElem?_eq_getElem i.isLt, ih,
      List.get_eq_getElem]

/-- C9: for every table and every list of in-range indices, `formatSubscriptionIds` and
`formatGroupIdsList` return the join, with the separator `" , "`, of the quoted entries in
list order (nothing before the first entry, nothing after the last one); for the empty list
both return the empty string. -/
theorem formatLists_join (lower : Nat → Nat) (groupsAndSubs : List ManagementGroupInfo)
    (list : List (Fin groupsAndSubs.length)) :
    formatSubscriptionIds (list.map Fin.val) groupsAndSubs
      = some (List.intercalate (ascii " , ")
          (list.map (fun i => quoted (formatGroupId (groupsAndSubs.get i).Id)))) ∧
    formatGroupIdsList lower (list.map Fin.val) groupsAndSubs
      = some (List.intercalate (ascii " , ")
          (list.map (fun i => quoted (getDisplayName lower (groupsAndSubs.get i) ++ ascii "---"
            ++ formatGroupId (groupsAndSubs.get i).Id)))) ∧
    formatSubscriptionIds [] groupsAndSubs = some [] ∧
    formatGroupIdsList lower [] groupsAndSubs = some [] := by
  have hr : ∀ v ∈ list.map Fin.val, v < groupsAndSubs.length := by
    intro v hv
    obtain ⟨i, _, rfl⟩ := List.mem_map.mp hv
    exact i.isLt
  refine ⟨?_, ?_, rfl, rfl⟩
  · rw [formatSubscriptionIds_eq _ _ hr, filterMap_getElem_fin, List.map_map]
    rfl
  · rw [formatGroupIdsList_eq _ _ _ hr, filterMap_getElem_fin, List.map_map]
    rfl

/-- C10 (as stated, refuted): a single entry whose sanitised text is `ab` (2 bytes, at most
3) is returned complete, between its two quotes, by both list formatters: nothing of the
entry is lost to the trailing trim. -/
theorem formatLists_single_short_entry_intact :
    (formatGroupId (ascii "ab")).length ≤ 3 ∧
    formatSubscriptionIds [0]
        [{ Id := ascii "ab", Name := [], Properties := { DisplayName := [], Parent := { Id := [] } },
           Typ := [], ChildrenGroups := [], ChildrenSubscriptions := [] }]
      = some (ascii "\"ab\"") ∧
    formatGroupIdsList simpleLower [0]
        [{ Id := [], Name := [], Properties := { DisplayName := [], Parent := { Id := [] } },
           Typ := [], ChildrenGroups := [], ChildrenSubscriptions := [] }]
      = some (ascii "\"---\"") := by
  decide

/-- C10 (amended): for a list with a single in-range entry, whatever the length of its
sanitised text (3 bytes or fewer included), both list formatters return the complete quoted
entry: the trailing trim removes exactly the 3 bytes of the separator `" , "`. -/
theorem formatLists_single_entry (lower : Nat → Nat) (groupsAndSubs : List ManagementGroupInfo)
    (v : Fin groupsAndSubs.length) :
    formatSubscriptionIds [v.val] groupsAndSubs
      = some (ascii "\"" ++ formatGroupId (groupsAndSubs.get v).Id ++ ascii "\"") ∧
    formatGroupIdsList lower [v.val] groupsAndSubs
      = some (ascii "\"" ++ (getDisplayName lower (groupsAndSubs.get v) ++ ascii "---"
          ++ formatGroupId (groupsAndSubs.get v).Id) ++ ascii "\"") := by
  have hr : ∀ w ∈ [v.val], w < groupsAndSubs.length := by
    intro w hw
    rw [List.mem_singleton] at hw
    exact hw ▸ v.isLt
  constructor
  · rw [formatSubscriptionIds_eq _ _ hr]
    simp [joinEntries, List.intercalate, subscriptionEntry, quoted,
      List.getElem?_eq_getElem v.isLt]
  · rw [formatGroupIdsList_eq _ _ _ hr]
    simp [joinEntries, List.intercalate, groupEntry, quoted,
      List.getElem?_eq_getElem v.isLt]

/-! ## The first loop: the child maps -/

theorem types_ne : TYPE_MANAGEMENT_GROUPS ≠ TYPE_SUBSCRIPTIONS := by decide

theorem GoMap.get_set (m : GoMap (List Nat)) (k p : GoString) (x : List Nat) :
    (m.set k x).get p = if p = k then x else m.get p := by
  unfold GoMap.get GoMap.set
  split_ifs <;> rfl

theorem indexStep_groups (i : Nat) (v : ManagementGroupInfo) (m : TreeMaps) (p : GoString) :
    (indexStep i v m).idToChildGroupsMap.get p =
      m.idToChildGroupsMap.get p
        ++ (if isChildOf p TYPE_MANAGEMENT_GROUPS v = true then [i] else []) := by
  unfold indexStep isChildOf
  by_cases h1 : v.Properties.Parent.Id = []
  · simp [h1]
  · by_cases h2 : v.Typ = TYPE_MANAGEMENT_GROUPS
    · by_cases h3 : v.Properties.Parent.Id = p
      · subst h3
        simp [h1, h2, GoMap.get_set]
      · have h4 : ¬ p = v.Properties.Parent.Id := fun h => h3 h.symm
        simp [h1, h2, h3, h4, GoMap.get_set]
    · by_cases h5 : v.Typ = TYPE_SUBSCRIPTIONS
      · simp [h1, h2, h5, types_ne, types_ne.symm]
      · simp [h1, h2, h5, types_ne, types_ne.symm]

theorem indexStep_subscriptions (i : Nat) (v : ManagementGroupInfo) (m : TreeMaps)
    (p : GoString) :
    (indexStep i v m).idToChildSubscriptionsMap.get p =
      m.idToChildSubscriptionsMap.get p
        ++ (if isChildOf p TYPE_SUBSCRIPTIONS v = true then [i] else []) := by
  unfold indexStep isChildOf
  by_cases h1 : v.Properties.Parent.Id = []
  · simp [h1]
  · by_cases h2 : v.Typ = TYPE_MANAGEMENT_GROUPS
    · have h6 : ¬ v.Typ = TYPE_SUBSCRIPTIONS := fun h => types_ne (h2.symm.trans h)
      simp [h1, h2, h6, types_ne, types_ne.symm]
    · by_cases h5 : v.Typ = TYPE_SUBSCRIPTIONS
      · by_cases h3 : v.Properties.Parent.Id = p
        · subst h3
          simp [h1, h2, h5, GoMap.get_set, types_ne, types_ne.symm]
        · have h4 : ¬ p = v.Properties.Parent.Id := fun h => h3 h.symm
          simp [h1, h2, h3, h4, h5, GoMap.get_set, types_ne, types_ne.symm]
      · simp [h1, h2, h5, types_ne, types_ne.symm]

theorem indexLoop_groups (vs : List ManagementGroupInfo) (i : Nat) (m : TreeMaps)
    (p : GoString) :
    (indexLoop i vs m).idToChildGroupsMap.get p =
      m.idToChildGroupsMap.get p
        ++ ((List.enumFrom i vs).filter
              (fun ic => isChildOf p TYPE_MANAGEMENT_GROUPS ic.2)).map Prod.fst := by
  induction vs generalizing i m with
  | nil => simp [indexLoop]
  | cons v rest ih =>
    rw [indexLoop, ih, indexStep_groups, List.enumFrom_cons, List.filter_cons]
    split_ifs <;> simp

theorem indexLoop_subscriptions (vs : List ManagementGroupInfo) (i : Nat) (m : TreeMaps)
    (p : GoString) :
    (indexLoop i vs m).idToChildSubscriptionsMap.get p =
      m.idToChildSubscriptionsMap.get p
        ++ ((List.enumFrom i vs).filter
              (fun ic => isChildOf p TYPE_SUBSCRIPTIONS ic.2)).map Prod.fst := by
  induction vs generalizing i m with
  | nil => simp [indexLoop]
  | cons v rest ih =>
    rw [indexLoop, ih, indexStep_subscriptions, List.enumFrom_cons, List.filter_cons]
    split_ifs <;> simp

/-- After the first loop the child-group map holds, under every id, the indices of the
group children of that id, in table order. -/
theorem buildMaps_groups (azureTenant : GoString) (value : List ManagementGroupInfo)
    (p : GoString) :
    (buildMaps azureTenant value).idToChildGroupsMap.get p =
      indicesWhere (isChildOf p TYPE_MANAGEMENT_GROUPS) (nodeTable azureTenant value) := by
  unfold buildMaps indicesWhere List.enum
  rw [indexLoop_groups]
  simp [GoMap.get]

theorem buildMaps_subscriptions (azureTenant : GoString) (value : List ManagementGroupInfo)
    (p : GoString) :
    (buildMaps azureTenant value).idToChildSubscriptionsMap.get p =
      indicesWhere (isChildOf p TYPE_SUBSCRIPTIONS) (nodeTable azureTenant value) := by
  unfold buildMaps indicesWhere List.enum
  rw [indexLoop_subscriptions]
  simp [GoMap.get]

/-! ## Indices and the nodes they denote -/

theorem enumFrom_filter_getElem (P : ManagementGroupInfo → Bool)
    (suf pre : List ManagementGroupInfo) :
    ((((List.enumFrom pre.length suf).filter (fun ic => P ic.2)).map Prod.fst).filterMap
        (fun v => (pre ++ suf)[v]?)) = suf.filter P := by
  induction suf generalizing pre with
  | nil => simp
  | cons a rest ih =>
    have ih2 := ih (pre ++ [a])
    simp only [List.length_append, List.length_singleton, List.append_assoc,
      List.singleton_append] at ih2
    rw [List.enumFrom_cons, List.filter_cons, List.filter_cons]
    by_cases hP : P a = true
    · simp only [hP, if_true, List.map_cons, List.filterMap_cons]
      have hget : (pre ++ a :: rest)[pre.length]? = some a := by
        rw [List.getElem?_append_right (Nat.le_refl _)]
        simp
      rw [hget]
      simp only [ih2]
    · simp only [hP, if_false, Bool.false_eq_true]
      exact ih2

theorem indicesWhere_filterMap (P : ManagementGroupInfo → Bool)
    (table : List ManagementGroupInfo) :
    (indicesWhere P table).filterMap (fun v => table[v]?) = table.filter P := by
  have h := enumFrom_filter_getElem P table []
  simpa [indicesWhere, List.enum] using h

theorem enumFrom_filter_lt (P : ManagementGroupInfo → Bool) (vs : List ManagementGroupInfo)
    (i : Nat) :
    ∀ v ∈ ((List.enumFrom i vs).filter (fun ic => P ic.2)).map Prod.fst, v < i + vs.length := by
  induction vs generalizing i with
  | nil => simp
  | cons a rest ih =>
    intro v hv
    rw [List.enumFrom_cons, List.filter_cons] at hv
    have ih2 := ih (i + 1)
    simp only [List.length_cons]
    split_ifs at hv
    · rw [List.map_cons, List.mem_cons] at hv
      rcases hv with h | h
      · simp only [h]; omega
      · have := ih2 v h
        omega
    · have := ih2 v hv
      omega

theorem indicesWhere_lt (P : ManagementGroupInfo → Bool) (table : List ManagementGroupInfo) :
    ∀ v ∈ indicesWhere P table, v < table.length := by
  intro v hv
  have := enumFrom_filter_lt P table 0 v hv
  omega

theorem enumFrom_map_congr (P : ManagementGroupInfo → Bool)
    (f : ManagementGroupInfo → ManagementGroupInfo) (hf : ∀ g, P (f g) = P g)
    (vs : List ManagementGroupInfo) (i : Nat) :
    ((List.enumFrom i (vs.map f)).filter (fun ic => P ic.2)).map Prod.fst =
      ((List.enumFrom i vs).filter (fun ic => P ic.2)).map Prod.fst := by
  induction vs generalizing i with
  | nil => rfl
  | cons a rest ih =>
    simp only [List.map_cons, List.enumFrom_cons, List.filter_cons, hf a]
    split_ifs <;> simp [ih]

theorem indicesWhere_map (P : ManagementGroupInfo → Bool)
    (f : ManagementGroupInfo → ManagementGroupInfo) (hf : ∀ g, P (f g) = P g)
    (table : List ManagementGroupInfo) :
    indicesWhere P (table.map f) = indicesWhere P table :=
  enumFrom_map_congr P f hf table 0

/-! ## The second loop -/

theorem updateAt_append {α : Type} (f : α → α) (l1 : List α) (a : α) (l2 : List α) (n : Nat)
    (hn : l1.length = n) : updateAt f n (l1 ++ a :: l2) = l1 ++ f a :: l2 := by
  induction l1 generalizing n with
  | nil =>
    subst hn
    rfl
  | cons b rest ih =>
    subst hn
    show b :: updateAt f rest.length (rest ++ a :: l2) = b :: (rest ++ f a :: l2)
    rw [ih rest.length rfl]

theorem filterMap_getElem_map (e : ManagementGroupInfo → GoString)
    (t : List ManagementGroupInfo) (list : List Nat) :
    (list.filterMap (fun v => t[v]?)).map e = list.filterMap (fun v => (t.map e)[v]?) := by
  rw [List.map_filterMap]
  simp only [List.getElem?_map]

/-- The entries read through a table only depend on the ids and display names in it. -/
theorem entries_congr (e : ManagementGroupInfo → GoString) (t t0 : List ManagementGroupInfo)
    (h : t.map e = t0.map e) (P : ManagementGroupInfo → Bool) :
    ((indicesWhere P t0).filterMap (fun v => t[v]?)).map e = (t0.filter P).map e := by
  rw [filterMap_getElem_map, h, ← filterMap_getElem_map, indicesWhere_filterMap]

theorem map_during_loop (e : ManagementGroupInfo → GoString) (m : TreeMaps)
    (he : ∀ g, e (withChildren m g) = e g) (done : List ManagementGroupInfo)
    (v : ManagementGroupInfo) (todo : List ManagementGroupInfo) :
    (done.map (withChildren m) ++ withChildren m v :: todo).map e
      = (done ++ v :: todo).map e := by
  simp [List.map_append, Function.comp_def, he]

theorem renderStep_eq (lower : Nat → Nat) (m : TreeMaps) (table : List ManagementGroupInfo)
    (hg : ∀ p, m.idToChildGroupsMap.get p
      = indicesWhere (isChildOf p TYPE_MANAGEMENT_GROUPS) table)
    (hs : ∀ p, m.idToChildSubscriptionsMap.get p
      = indicesWhere (isChildOf p TYPE_SUBSCRIPTIONS) table)
    (done : List ManagementGroupInfo) (v : ManagementGroupInfo)
    (todo : List ManagementGroupInfo) (out : List GoString)
    (htable : done ++ v :: todo = table) :
    renderStep lower m done.length
        { groupsAndSubs := done.map (withChildren m) ++ v :: todo, out := out }
      = some { groupsAndSubs := done.map (withChildren m) ++ withChildren m v :: todo
               out := out ++ (if isGroup v = true then [blockOf lower table v] else []) } := by
  have hlen : (done.map (withChildren m)).length = done.length := List.length_map _ _
  have hget : (done.map (withChildren m) ++ v :: todo)[done.length]? = some v := by
    rw [List.getElem?_append_right (by rw [hlen]), hlen]
    simp
  have hupd : updateAt (fun g => { g with
        ChildrenSubscriptions := m.idToChildSubscriptionsMap.get v.Id }) done.length
      (updateAt (fun g => { g with ChildrenGroups := m.idToChildGroupsMap.get v.Id })
        done.length (done.map (withChildren m) ++ v :: todo))
      = done.map (withChildren m) ++ withChildren m v :: todo := by
    rw [updateAt_append _ _ _ _ _ hlen, updateAt_append _ _ _ _ _ hlen]
    rfl
  have hget2 : (done.map (withChildren m) ++ withChildren m v :: todo)[done.length]?
      = some (withChildren m v) := by
    rw [List.getElem?_append_right (by rw [hlen]), hlen]
    simp
  have hlen2 : (done.map (withChildren m) ++ withChildren m v :: todo).length = table.length := by
    rw [← htable]
    simp
  unfold renderStep
  simp only [hget, hupd, hget2]
  by_cases hT : v.Typ = TYPE_MANAGEMENT_GROUPS
  · have hsub : formatSubscriptionIds (withChildren m v).ChildrenSubscriptions
          (done.map (withChildren m) ++ withChildren m v :: todo)
        = some (joinEntries
            ((table.filter (isChildOf v.Id TYPE_SUBSCRIPTIONS)).map subscriptionEntry)) := by
      have hc : (withChildren m v).ChildrenSubscriptions
          = indicesWhere (isChildOf v.Id TYPE_SUBSCRIPTIONS) table := hs v.Id
      rw [hc, formatSubscriptionIds_eq _ _
        (fun w hw => by rw [hlen2]; exact indicesWhere_lt _ _ w hw)]
      rw [entries_congr subscriptionEntry _ table
        (by rw [map_during_loop subscriptionEntry m (fun _ => rfl), htable])]
    have hgrp : formatGroupIdsList lower (withChildren m v).ChildrenGroups
          (done.map (withChildren m) ++ withChildren m v :: todo)
        = some (joinEntries
            ((table.filter (isChildOf v.Id TYPE_MANAGEMENT_GROUPS)).map (groupEntry lower))) := by
      have hc : (withChildren m v).ChildrenGroups
          = indicesWhere (isChildOf v.Id TYPE_MANAGEMENT_GROUPS) table := hg v.Id
      rw [hc, formatGroupIdsList_eq _ _ _
        (fun w hw => by rw [hlen2]; exact indicesWhere_lt _ _ w hw)]
      rw [entries_congr (groupEntry lower) _ table
        (by rw [map_during_loop (groupEntry lower) m (fun _ => rfl), htable])]
    simp only [hT, if_true, hsub, hgrp, isGroup, decide_True, blockOf, resourceName]
  · simp [hT, isGroup]

theorem renderLoop_eq (lower : Nat → Nat) (m : TreeMaps) (table : List ManagementGroupInfo)
    (hg : ∀ p, m.idToChildGroupsMap.get p
      = indicesWhere (isChildOf p TYPE_MANAGEMENT_GROUPS) table)
    (hs : ∀ p, m.idToChildSubscriptionsMap.get p
      = indicesWhere (isChildOf p TYPE_SUBSCRIPTIONS) table)
    (todo done : List ManagementGroupInfo) (out : List GoString)
    (htable : done ++ todo = table) :
    renderLoop lower m done.length todo.length
        { groupsAndSubs := done.map (withChildren m) ++ todo, out := out }
      = some { groupsAndSubs := table.map (withChildren m)
               out := out ++ (todo.filter isGroup).map (blockOf lower table) } := by
  induction todo generalizing done out with
  | nil =>
    simp only [List.append_nil] at htable
    simp [renderLoop, htable]
  | cons v rest ih =>
    rw [List.length_cons, renderLoop, renderStep_eq lower m table hg hs done v rest out htable]
    have hd : done.map (withChildren m) ++ withChildren m v :: rest
        = (done ++ [v]).map (withChildren m) ++ rest := by simp
    have hl : done.length + 1 = (done ++ [v]).length := by simp
    simp only []
    rw [hd, hl, ih (done ++ [v]) _ (by simpa using htable)]
    by_cases hv : isGroup v = true
    · simp [List.filter_cons, hv]
    · simp [List.filter_cons, hv]

/-- The run never panics; it ends with every node carrying its child indices and with one
block printed per group node, in table order. -/
theorem treeAndRender_eq (lower : Nat → Nat) (azureTenant : GoString)
    (value : List ManagementGroupInfo) :
    treeAndRender lower azureTenant value
      = some { groupsAndSubs :=
                 (nodeTable azureTenant value).map (withChildren (buildMaps azureTenant value))
               out := ((nodeTable azureTenant value).filter isGroup).map
                 (blockOf lower (nodeTable azureTenant value)) } := by
  have h := renderLoop_eq lower (buildMaps azureTenant value) (nodeTable azureTenant value)
    (buildMaps_groups azureTenant value) (buildMaps_subscriptions azureTenant value)
    (nodeTable azureTenant value) [] [] rfl
  simpa [treeAndRender] using h

/-! ## The tree builder and the renderer: C1 to C4 -/

/-- C1 (as stated, refuted): when the fetched list holds a node with an empty id, the table
is that node followed by the root; the indices `i` with `table[i].parentId == ""` and
management-group type are `[1]` (the root has an empty parent id), but the node gets no
child group at all, because the first loop skips every node whose parent id is empty. -/
theorem children_indices_empty_id :
    (treeAndRender simpleLower (ascii "t") [blankNode]).map
        (fun st => st.groupsAndSubs.map (fun N => N.ChildrenGroups)) = some [[], []] ∧
    (treeAndRender simpleLower (ascii "t") [blankNode]).map
        (fun st => st.groupsAndSubs.map
          (fun N => indicesWhere (hasParentAndType N.Id TYPE_MANAGEMENT_GROUPS) st.groupsAndSubs))
      = some [[1], []] := by
  decide

/-- C1 (amended): for every fetched list and tenant id the run ends with a table of the
fetched nodes and the root, and for every index `j` of it the node `N` at `j` has as
`ChildrenGroups` exactly the indices `i`, in increasing table order, with `table[i].parentId`
non-empty and equal to `N.id` and `table[i].type` the management-group type, and as
`ChildrenSubscriptions` the same with the subscription type. -/
theorem children_indices (lower : Nat → Nat) (azureTenant : GoString)
    (value : List ManagementGroupInfo) (j : Nat) (hj : j < value.length + 1) :
    ∃ st N, treeAndRender lower azureTenant value = some st ∧
      st.groupsAndSubs.length = value.length + 1 ∧
      st.groupsAndSubs[j]? = some N ∧
      N.ChildrenGroups = indicesWhere (isChildOf N.Id TYPE_MANAGEMENT_GROUPS) st.groupsAndSubs ∧
      N.ChildrenSubscriptions = indicesWhere (isChildOf N.Id TYPE_SUBSCRIPTIONS) st.groupsAndSubs := by
  have hlen : (nodeTable azureTenant value).length = value.length + 1 := by simp [nodeTable]
  have hjt : j < (nodeTable azureTenant value).length := by omega
  refine ⟨_, withChildren (buildMaps azureTenant value) ((nodeTable azureTenant value)[j]),
    treeAndRender_eq lower azureTenant value, ?_, ?_, ?_, ?_⟩
  · simp [hlen]
  · simp [List.getElem?_eq_getElem hjt]
  · exact (buildMaps_groups azureTenant value _).trans
      (indicesWhere_map (isChildOf _ _) (withChildren _) (fun _ => rfl) _).symm
  · exact (buildMaps_subscriptions azureTenant value _).trans
      (indicesWhere_map (isChildOf _ _) (withChildren _) (fun _ => rfl) _).symm

/-- Witness of C1 (amended): a group with one subscription under the tenant root. -/
theorem children_indices_witness :
    0 < [groupNode (ascii "g") (ascii "G one") (mgmtGroupsPath ++ ascii "t"),
          subscriptionNode (ascii "s1") (mgmtGroupsPath ++ ascii "g")].length + 1 ∧
    ∃ st N, treeAndRender simpleLower (ascii "t")
        [groupNode (ascii "g") (ascii "G one") (mgmtGroupsPath ++ ascii "t"),
          subscriptionNode (ascii "s1") (mgmtGroupsPath ++ ascii "g")] = some st ∧
      st.groupsAndSubs.length =
        [groupNode (ascii "g") (ascii "G one") (mgmtGroupsPath ++ ascii "t"),
          subscriptionNode (ascii "s1") (mgmtGroupsPath ++ ascii "g")].length + 1 ∧
      st.groupsAndSubs[0]? = some N ∧
      N.ChildrenGroups = indicesWhere (isChildOf N.Id TYPE_MANAGEMENT_GROUPS) st.groupsAndSubs ∧
      N.ChildrenSubscriptions = indicesWhere (isChildOf N.Id TYPE_SUBSCRIPTIONS) st.groupsAndSubs :=
  ⟨by decide, children_indices simpleLower (ascii "t") _ 0 (by decide)⟩

theorem getElem?_filter_map_of_getElem? (f : ManagementGroupInfo → GoString)
    (P : ManagementGroupInfo → Bool) (table : List ManagementGroupInfo) (i : Nat)
    (N : ManagementGroupInfo) (hN : table[i]? = some N) (hP : P N = true) :
    ((table.filter P).map f)[(table.take i).countP P]? = some (f N) := by
  induction table generalizing i with
  | nil => simp at hN
  | cons a rest ih =>
    cases i with
    | zero =>
      simp only [List.getElem?_cons_zero, Option.some.injEq] at hN
      subst hN
      simp [List.filter_cons, hP]
    | succ k =>
      simp only [List.getElem?_cons_succ] at hN
      have ih2 := ih k hN
      by_cases ha : P a = true
      · simp [List.filter_cons, ha, List.take_succ_cons, List.countP_cons, ih2]
      · simp [List.filter_cons, ha, List.take_succ_cons, List.countP_cons, ih2]

/-- C2: for every fetched list and tenant id and every node `N` of management-group type at
index `i` of the table, the block printed for `N` (the one whose position is the number of
group nodes before index `i`) carries, between the brackets of `account_ids`, the join of
the quoted sanitised ids of the subscription children of `N` in table order and, between
the brackets of `child_group_ids`, the join of the quoted entries
`<getDisplayName c>---<formatGroupId c.Id>` of the group children `c` of `N` in table order.
The children of `N` are the nodes that have `N` as parent: their parent id is not empty
and equals the id of `N`. -/
theorem block_lists_children (lower : Nat → Nat) (azureTenant : GoString)
    (value : List ManagementGroupInfo) (i : Nat) (N : ManagementGroupInfo)
    (hN : (nodeTable azureTenant value)[i]? = some N)
    (hT : N.Typ = TYPE_MANAGEMENT_GROUPS) :
    ∃ st, treeAndRender lower azureTenant value = some st ∧
      st.out[((nodeTable azureTenant value).take i).countP isGroup]? =
        some (resourceBlock
          (getDisplayName lower N ++ ascii "---" ++ formatGroupId N.Id)
          (getDisplayName lower N ++ ascii "---" ++ formatGroupId N.Id)
          (List.intercalate (ascii " , ")
            (((nodeTable azureTenant value).filter (isChildOf N.Id TYPE_SUBSCRIPTIONS)).map
              (fun c => quoted (formatGroupId c.Id))))
          (List.intercalate (ascii " , ")
            (((nodeTable azureTenant value).filter (isChildOf N.Id TYPE_MANAGEMENT_GROUPS)).map
              (fun c => quoted (getDisplayName lower c ++ ascii "---" ++ formatGroupId c.Id))))) := by
  refine ⟨_, treeAndRender_eq lower azureTenant value, ?_⟩
  have h := getElem?_filter_map_of_getElem? (blockOf lower (nodeTable azureTenant value))
    isGroup (nodeTable azureTenant value) i N hN (by simp [isGroup, hT])
  exact h

set_option maxRecDepth 100000 in
/-- Witness of C2: the root of tenant `t` with two child groups `g1` and `g2`; the group
children of the root are `g1` then `g2`, and the root's block, the third one, lists both. -/
theorem block_lists_children_witness :
    (nodeTable (ascii "t")
        [groupNode (ascii "g1") (ascii "One") (mgmtGroupsPath ++ ascii "t"),
          groupNode (ascii "g2") (ascii "Two") (mgmtGroupsPath ++ ascii "t")]).filter
      (isChildOf (rootGroup (ascii "t")).Id TYPE_MANAGEMENT_GROUPS)
      = [groupNode (ascii "g1") (ascii "One") (mgmtGroupsPath ++ ascii "t"),
          groupNode (ascii "g2") (ascii "Two") (mgmtGroupsPath ++ ascii "t")] ∧
    ∃ st, treeAndRender simpleLower (ascii "t")
        [groupNode (ascii "g1") (ascii "One") (mgmtGroupsPath ++ ascii "t"),
          groupNode (ascii "g2") (ascii "Two") (mgmtGroupsPath ++ ascii "t")] = some st ∧
      st.out[2]? = some (ascii ("resource \"prismacloud_account_group\" \"TENANT_ROOT---t\" \x7b\n"
        ++ "\tname = \"TENANT_ROOT---t\"\n\tdescription = \"Made by Terraform\"\n"
        ++ "\taccount_ids = []\n\tchild_group_ids = [\"One---g1\" , \"Two---g2\"]\n\x7d\n")) := by
  refine ⟨by decide, ?_⟩
  obtain ⟨st, h1, h2⟩ := block_lists_children simpleLower (ascii "t")
    [groupNode (ascii "g1") (ascii "One") (mgmtGroupsPath ++ ascii "t"),
      groupNode (ascii "g2") (ascii "Two") (mgmtGroupsPath ++ ascii "t")] 2
    (rootGroup (ascii "t")) (by decide) (by decide)
  refine ⟨st, h1, ?_⟩
  rw [show (2 : Nat) = ((nodeTable (ascii "t")
        [groupNode (ascii "g1") (ascii "One") (mgmtGroupsPath ++ ascii "t"),
          groupNode (ascii "g2") (ascii "Two") (mgmtGroupsPath ++ ascii "t")]).take 2).countP
      isGroup from by decide, h2]
  decide

/-- C3: for every fetched list the run prints exactly one block per table node of
management-group type, in table order, and none for any other node; the last block is the
one of the synthetic root, and the number of blocks is the number of fetched
management-group nodes plus one. -/
theorem one_block_per_group (lower : Nat → Nat) (azureTenant : GoString)
    (value : List ManagementGroupInfo) :
    ∃ st, treeAndRender lower azureTenant value = some st ∧
      st.out = ((nodeTable azureTenant value).filter isGroup).map
        (blockOf lower (nodeTable azureTenant value)) ∧
      nodeTable azureTenant value = value ++ [rootGroup azureTenant] ∧
      st.out.getLast? = some (blockOf lower (nodeTable azureTenant value) (rootGroup azureTenant)) ∧
      st.out.length = (value.filter isGroup).length + 1 := by
  have hroot : isGroup (rootGroup azureTenant) = true := by simp [isGroup, rootGroup]
  refine ⟨_, treeAndRender_eq lower azureTenant value, rfl, rfl, ?_, ?_⟩
  · simp [nodeTable, List.filter_append, List.filter_cons, hroot]
  · simp [nodeTable, List.filter_append, List.filter_cons, hroot]

set_option maxRecDepth 100000 in
/-- C4 (as stated, refuted): on the fixture of a group `g` under the root of tenant `t` and
a subscription `s1` under `g`, the run prints two blocks, not one: the block of `g` and then
the block of the synthetic root, which is itself of management-group type. -/
theorem fixture_prints_root_block :
    (treeAndRender simpleLower (ascii "t")
        [groupNode (ascii "g") (ascii "G one") (rootGroup (ascii "t")).Id,
          subscriptionNode (ascii "s1") (mgmtGroupsPath ++ ascii "g")]).map
      (fun st => st.out.length) = some 2 ∧
    (treeAndRender simpleLower (ascii "t")
        [groupNode (ascii "g") (ascii "G one") (rootGroup (ascii "t")).Id,
          subscriptionNode (ascii "s1") (mgmtGroupsPath ++ ascii "g")]).map
      (fun st => st.out) = some
        [ascii ("resource \"prismacloud_account_group\" \"G_one---g\" \x7b\n"
          ++ "\tname = \"G_one---g\"\n\tdescription = \"Made by Terraform\"\n"
          ++ "\taccount_ids = [\"s1\"]\n\tchild_group_ids = []\n\x7d\n"),
         ascii ("resource \"prismacloud_account_group\" \"TENANT_ROOT---t\" \x7b\n"
          ++ "\tname = \"TENANT_ROOT---t\"\n\tdescription = \"Made by Terraform\"\n"
          ++ "\taccount_ids = []\n\tchild_group_ids = [\"G_one---g\"]\n\x7d\n")] := by
  decide

/-- C4 (amended): for every fixture made of one management group `G` whose parent is the
root and one subscription `S` whose parent is `G` (the id of `G` being non-empty and not
the root's), in either fetch order, the run prints exactly two blocks: first the block of
`G`, whose `account_ids` holds exactly the quoted sanitised id of `S` and whose
`child_group_ids` is empty, then the block of the synthetic root, whose `account_ids` is
empty and whose `child_group_ids` holds exactly the entry of `G`. -/
theorem fixture_two_blocks (lower : Nat → Nat) (azureTenant : GoString)
    (G S : ManagementGroupInfo)
    (hGt : G.Typ = TYPE_MANAGEMENT_GROUPS)
    (hGp : G.Properties.Parent.Id = (rootGroup azureTenant).Id)
    (hSt : S.Typ = TYPE_SUBSCRIPTIONS)
    (hSp : S.Properties.Parent.Id = G.Id)
    (hGid : G.Id ≠ [])
    (hGr : G.Id ≠ (rootGroup azureTenant).Id) :
    ∀ value, value = [G, S] ∨ value = [S, G] →
    ∃ st, treeAndRender lower azureTenant value = some st ∧
      st.out =
        [resourceBlock (getDisplayName lower G ++ ascii "---" ++ formatGroupId G.Id)
            (getDisplayName lower G ++ ascii "---" ++ formatGroupId G.Id)
            (quoted (formatGroupId S.Id)) [],
         resourceBlock
            (getDisplayName lower (rootGroup azureTenant) ++ ascii "---"
              ++ formatGroupId (rootGroup azureTenant).Id)
            (getDisplayName lower (rootGroup azureTenant) ++ ascii "---"
              ++ formatGroupId (rootGroup azureTenant).Id)
            []
            (quoted (getDisplayName lower G ++ ascii "---" ++ formatGroupId G.Id))] := by
  have hSg : ¬ S.Typ = TYPE_MANAGEMENT_GROUPS := fun h => types_ne (h.symm.trans hSt)
  have hGs : ¬ G.Typ = TYPE_SUBSCRIPTIONS := fun h => types_ne (hGt.symm.trans h)
  have hRid : (rootGroup azureTenant).Id ≠ [] := by
    simp [rootGroup, mgmtGroupsPath_bytes]
  have hRt : (rootGroup azureTenant).Typ = TYPE_MANAGEMENT_GROUPS := rfl
  have hRp : (rootGroup azureTenant).Properties.Parent.Id = [] := rfl
  have hGr2 : ¬ (rootGroup azureTenant).Id = G.Id := fun h => hGr h.symm
  have hGid2 : ¬ [] = G.Id := fun h => hGid h.symm
  intro value hv
  refine ⟨_, treeAndRender_eq lower azureTenant value, ?_⟩
  rcases hv with rfl | rfl
  · simp [nodeTable, List.filter_cons, isGroup, blockOf, isChildOf, resourceName, joinEntries,
      List.intercalate, subscriptionEntry, groupEntry, hGt, hGp, hSt, hSp, hGid, hGr, hSg, hGs,
      hRid, hRt, hRp, hGr2, hGid2, types_ne, types_ne.symm]
  · simp [nodeTable, List.filter_cons, isGroup, blockOf, isChildOf, resourceName, joinEntries,
      List.intercalate, subscriptionEntry, groupEntry, hGt, hGp, hSt, hSp, hGid, hGr, hSg, hGs,
      hRid, hRt, hRp, hGr2, hGid2, types_ne, types_ne.symm]

/-- Witness of C4 (amended): the group `g` under the root of tenant `t` and the
subscription `s1` under `g`. -/
theorem fixture_two_blocks_witness :
    ∃ st, treeAndRender simpleLower (ascii "t")
        [groupNode (ascii "g") (ascii "G one") (rootGroup (ascii "t")).Id,
          subscriptionNode (ascii "s1") (mgmtGroupsPath ++ ascii "g")] = some st ∧
      st.out =
        [resourceBlock
            (getDisplayName simpleLower
                (groupNode (ascii "g") (ascii "G one") (rootGroup (ascii "t")).Id)
              ++ ascii "---"
              ++ formatGroupId (groupNode (ascii "g") (ascii "G one") (rootGroup (ascii "t")).Id).Id)
            (getDisplayName simpleLower
                (groupNode (ascii "g") (ascii "G one") (rootGroup (ascii "t")).Id)
              ++ ascii "---"
              ++ formatGroupId (groupNode (ascii "g") (ascii "G one") (rootGroup (ascii "t")).Id).Id)
            (quoted (formatGroupId
              (subscriptionNode (ascii "s1") (mgmtGroupsPath ++ ascii "g")).Id)) [],
         resourceBlock
            (getDisplayName simpleLower (rootGroup (ascii "t")) ++ ascii "---"
              ++ formatGroupId (rootGroup (ascii "t")).Id)
            (getDisplayName simpleLower (rootGroup (ascii "t")) ++ ascii "---"
              ++ formatGroupId (rootGroup (ascii "t")).Id)
            []
            (quoted (getDisplayName simpleLower
                (groupNode (ascii "g") (ascii "G one") (rootGroup (ascii "t")).Id)
              ++ ascii "---"
              ++ formatGroupId
                (groupNode (ascii "g") (ascii "G one") (rootGroup (ascii "t")).Id).Id))] :=
  fixture_two_blocks simpleLower (ascii "t")
    (groupNode (ascii "g") (ascii "G one") (rootGroup (ascii "t")).Id)
    (subscriptionNode (ascii "s1") (mgmtGroupsPath ++ ascii "g"))
    (by decide) (by decide) (by decide) (by decide) (by decide) (by decide) _ (Or.inl rfl)

/-! ## The whole run: C12, C13, C19 -/

theorem fetchAndRender_log (w : World) (azureTenant azureAccessToken : GoString) :
    LogEntry.missingEnvironment ∉ (fetchAndRender w azureTenant azureAccessToken).log := by
  unfold fetchAndRender
  split_ifs
  · simp
  · simp only []
    cases w.send { method := ascii "GET", url := descendantsUrl azureTenant,
                   authorization := ascii "Bearer " ++ azureAccessToken } with
    | doError => simp
    | readError => simp
    | body respBytes =>
      simp only []
      cases treeAndRender w.lower azureTenant (w.unmarshal respBytes).1 <;> simp

/-- Once the request is answered with a body, the run ends normally with one block per
group node of the table built from whatever `json.Unmarshal` left in `r.Value`, whether or
not `json.Unmarshal` returned an error. -/
theorem fetchAndRender_of_body (w : World) (azureTenant azureAccessToken respBytes : GoString)
    (hreq : w.newRequestFails (ascii "GET") (descendantsUrl azureTenant) = false)
    (hsend : w.send { method := ascii "GET", url := descendantsUrl azureTenant,
                      authorization := ascii "Bearer " ++ azureAccessToken }
      = Response.body respBytes) :
    fetchAndRender w azureTenant azureAccessToken =
      { requests := [{ method := ascii "GET", url := descendantsUrl azureTenant,
                       authorization := ascii "Bearer " ++ azureAccessToken }]
        log := [LogEntry.nodeCount ((w.unmarshal respBytes).1.length + 1)]
        out := ((nodeTable azureTenant (w.unmarshal respBytes).1).filter isGroup).map
          (blockOf w.lower (nodeTable azureTenant (w.unmarshal respBytes).1))
        exit := Exit.ok } := by
  unfold fetchAndRender
  simp only [hreq, Bool.false_eq_true, if_false, hsend, treeAndRender_eq]

/-- C12: for every triple (subscription id, tenant id, access token), if at least one of
the three is empty the run ends through `log.Fatal` with no request sent and no block
printed; if all three are non-empty the configuration check does not fail: the run goes on
to build the request and never logs the configuration error. -/
theorem config_check (w : World) (azureSub azureTenant azureAccessToken : GoString) :
    ((azureSub = [] ∨ azureTenant = [] ∨ azureAccessToken = []) →
      main w azureSub azureTenant azureAccessToken =
        { requests := [], log := [LogEntry.missingEnvironment], out := [],
          exit := Exit.fatal }) ∧
    ((azureSub ≠ [] ∧ azureTenant ≠ [] ∧ azureAccessToken ≠ []) →
      main w azureSub azureTenant azureAccessToken
          = fetchAndRender w azureTenant azureAccessToken ∧
        LogEntry.missingEnvironment ∉ (main w azureSub azureTenant azureAccessToken).log) := by
  constructor
  · intro h
    unfold main
    rw [if_pos h]
  · rintro ⟨h1, h2, h3⟩
    have hm : main w azureSub azureTenant azureAccessToken
        = fetchAndRender w azureTenant azureAccessToken := by
      unfold main
      rw [if_neg (by simp [h1, h2, h3])]
    exact ⟨hm, hm ▸ fetchAndRender_log w azureTenant azureAccessToken⟩

/-- Witness of C12: a run without tenant id, and a run with all three values. -/
theorem config_check_witness :
    main htmlWorld (ascii "sub") [] (ascii "tok") =
        { requests := [], log := [LogEntry.missingEnvironment], out := [],
          exit := Exit.fatal } ∧
    (main htmlWorld (ascii "sub") (ascii "t") (ascii "tok")
        = fetchAndRender htmlWorld (ascii "t") (ascii "tok") ∧
      LogEntry.missingEnvironment ∉
        (main htmlWorld (ascii "sub") (ascii "t") (ascii "tok")).log) :=
  ⟨(config_check htmlWorld (ascii "sub") [] (ascii "tok")).1 (Or.inr (Or.inl rfl)),
   (config_check htmlWorld (ascii "sub") (ascii "t") (ascii "tok")).2
     ⟨by decide, by decide, by decide⟩⟩

set_option maxRecDepth 100000 in
/-- C13 (the code at the failing input): the answer `<html>` is not JSON and
`json.Unmarshal` returns an error, yet the run is not fatal: it ends normally after printing
the block of the synthetic root. -/
theorem unmarshal_error_not_fatal :
    (htmlWorld.unmarshal (ascii "<html>")).2 = true ∧
    main htmlWorld (ascii "sub") (ascii "t") (ascii "tok") =
      { requests := [{ method := ascii "GET"
                       url := ascii ("https://management.azure.com/providers/"
                         ++ "Microsoft.Management/managementGroups/t/descendants"
                         ++ "?api-version=2021-04-01")
                       authorization := ascii "Bearer tok" }]
        log := [LogEntry.nodeCount 1]
        out := [ascii ("resource \"prismacloud_account_group\" \"TENANT_ROOT---t\" \x7b\n"
          ++ "\tname = \"TENANT_ROOT---t\"\n\tdescription = \"Made by Terraform\"\n"
          ++ "\taccount_ids = []\n\tchild_group_ids = []\n\x7d\n")]
        exit := Exit.ok } := by
  decide

/-- C19: for every world (tenant id, access token and answer to the request included), two
runs that differ only in their non-empty subscription id are the same run: same requests
sent, same lines logged, same blocks printed, same end. -/
theorem subscription_id_unused (w : World)
    (azureSub1 azureSub2 azureTenant azureAccessToken : GoString)
    (h1 : azureSub1 ≠ []) (h2 : azureSub2 ≠ []) :
    main w azureSub1 azureTenant azureAccessToken
      = main w azureSub2 azureTenant azureAccessToken := by
  unfold main
  simp [h1, h2]

/-- Witness of C19: the subscription ids `sub` and `other`. -/
theorem subscription_id_unused_witness :
    ascii "sub" ≠ [] ∧ ascii "other" ≠ [] ∧
    main htmlWorld (ascii "sub") (ascii "t") (ascii "tok")
      = main htmlWorld (ascii "other") (ascii "t") (ascii "tok") :=
  ⟨by decide, by decide,
   subscription_id_unused htmlWorld (ascii "sub") (ascii "other") (ascii "t") (ascii "tok")
     (by decide) (by decide)⟩

/-! ## Resource names: C17, C18 -/

theorem replaceSlashes_no_slash (x : GoString) : 47 ∉ replaceSlashes x := by
  induction x with
  | nil => simp [replaceSlashes]
  | cons b rest ih =>
    unfold replaceSlashes
    split_ifs with hb
    · simp [ih]
    · simp only [List.mem_cons, not_or]
      exact ⟨fun h => hb h.symm, ih⟩

theorem formatGroupId_no_slash (s : GoString) : 47 ∉ formatGroupId s := by
  simp only [formatGroupId, Replace_slash]
  exact replaceSlashes_no_slash _

set_option maxRecDepth 100000 in
/-- C17: the management groups `b---c`, displayed as `a`, and `c`, displayed as `a---b`,
have distinct well-formed ids (the management-group path followed by a name without `/`)
and the same resource name `a---b---c`, whatever the case table; a run on the two prints
two blocks with that same label and name. -/
theorem resource_names_collide :
    occursIn (ascii "/") (ascii "b---c") = false ∧
    occursIn (ascii "/") (ascii "c") = false ∧
    (groupNode (ascii "b---c") (ascii "a") (mgmtGroupsPath ++ ascii "t")).Id
      ≠ (groupNode (ascii "c") (ascii "a---b") (mgmtGroupsPath ++ ascii "t")).Id ∧
    (∀ lower : Nat → Nat,
      resourceName lower (groupNode (ascii "b---c") (ascii "a") (mgmtGroupsPath ++ ascii "t"))
        = ascii "a---b---c" ∧
      resourceName lower (groupNode (ascii "c") (ascii "a---b") (mgmtGroupsPath ++ ascii "t"))
        = ascii "a---b---c") ∧
    (treeAndRender simpleLower (ascii "t")
        [groupNode (ascii "b---c") (ascii "a") (mgmtGroupsPath ++ ascii "t"),
         groupNode (ascii "c") (ascii "a---b") (mgmtGroupsPath ++ ascii "t")]).map
      (fun st => st.out.take 2)
      = some [resourceBlock (ascii "a---b---c") (ascii "a---b---c") [] [],
              resourceBlock (ascii "a---b---c") (ascii "a---b---c") [] []] := by
  refine ⟨by decide, by decide, by decide, fun lower => ⟨rfl, rfl⟩, by decide⟩

/-- C18: for every string `s`, `formatGroupId s` contains no `/`, and `formatGroupId` is
idempotent: `formatGroupId (formatGroupId s) = formatGroupId s`. -/
theorem formatGroupId_no_slash_idempotent (s : GoString) :
    occursIn (ascii "/") (formatGroupId s) = false ∧
    formatGroupId (formatGroupId s) = formatGroupId s :=
  ⟨(occursIn_slash _).mpr (formatGroupId_no_slash s),
   formatGroupId_of_no_slash _ (formatGroupId_no_slash s)⟩

/-! ## The first loop: the id → index lookup -/

theorem indexStep_index (i : Nat) (v : ManagementGroupInfo) (m : TreeMaps) :
    (indexStep i v m).idToIndexMap = m.idToIndexMap.set v.Id i := by
  unfold indexStep
  simp only []
  split_ifs <;> rfl

theorem indexLoop_index (vs : List ManagementGroupInfo) (i : Nat) (m : TreeMaps)
    (id : GoString) :
    (indexLoop i vs m).idToIndexMap id =
      ((((List.enumFrom i vs).filter (fun ic => hasId id ic.2)).map Prod.fst).getLast?).or
        (m.idToIndexMap id) := by
  induction vs generalizing i m with
  | nil => simp [indexLoop]
  | cons v rest ih =>
    rw [indexLoop, ih, indexStep_index, List.enumFrom_cons, List.filter_cons]
    by_cases h : v.Id = id
    · have hset : (m.idToIndexMap.set v.Id i) id = some i := by simp [GoMap.set, h]
      have hP : hasId id (i, v).2 = true := by simp [hasId, h]
      rw [hset, if_pos hP, List.map_cons, List.getLast?_cons]
      cases (List.map Prod.fst
        (List.filter (fun ic => hasId id ic.2) (List.enumFrom (i + 1) rest))).getLast? <;> simp
    · have hne : ¬ id = v.Id := fun e => h e.symm
      have hset : (m.idToIndexMap.set v.Id i) id = m.idToIndexMap id := by
        simp [GoMap.set, hne]
      have hP : ¬ hasId id (i, v).2 = true := by simp [hasId, h]
      rw [hset, if_neg hP]

/-- After the first loop the lookup holds, under every id, the last index at which the
table carries that id, and nothing under an id that the table does not carry. -/
theorem buildMaps_index (azureTenant : GoString) (value : List ManagementGroupInfo)
    (id : GoString) :
    (buildMaps azureTenant value).idToIndexMap id =
      (indicesWhere (hasId id) (nodeTable azureTenant value)).getLast? := by
  unfold buildMaps indicesWhere List.enum
  rw [indexLoop_index]
  by_cases h : id = (rootGroup azureTenant).Id
  · have hP : hasId id (rootGroup azureTenant) = true := by simp [hasId, h]
    have hlast : (List.map Prod.fst (List.filter (fun ic => hasId id ic.2)
        (List.enumFrom 0 (nodeTable azureTenant value)))).getLast? = some value.length := by
      simp [nodeTable, List.enumFrom_append, List.filter_append, List.filter_cons, hP]
    rw [hlast]
    rfl
  · simp [GoMap.set, h]

theorem mem_indicesWhere (P : ManagementGroupInfo → Bool) (table : List ManagementGroupInfo)
    (j : Nat) : j ∈ indicesWhere P table ↔ ∃ c, table[j]? = some c ∧ P c = true := by
  unfold indicesWhere
  simp only [List.mem_map, List.mem_filter, Prod.exists, List.mk_mem_enum_iff_getElem?]
  constructor
  · rintro ⟨a, c, ⟨h1, h2⟩, rfl⟩
    exact ⟨c, h1, h2⟩
  · rintro ⟨c, h1, h2⟩
    exact ⟨j, c, ⟨h1, h2⟩, rfl⟩

theorem indicesWhere_pairwise (P : ManagementGroupInfo → Bool)
    (table : List ManagementGroupInfo) :
    (indicesWhere P table).Pairwise (fun a b => a < b) := by
  have hsub : List.Sublist (indicesWhere P table) (List.range table.length) := by
    unfold indicesWhere
    rw [← List.enum_map_fst]
    exact (List.filter_sublist _).map _
  exact List.Pairwise.sublist hsub (List.pairwise_lt_range _)

/-- The last of the indices that satisfy `P` is an index that satisfies `P`, and the
greatest one. -/
theorem indicesWhere_getLast (P : ManagementGroupInfo → Bool)
    (table : List ManagementGroupInfo) (j : Nat)
    (h : (indicesWhere P table).getLast? = some j) :
    (∃ c, table[j]? = some c ∧ P c = true) ∧
      ∀ k c, table[k]? = some c → P c = true → k ≤ j := by
  obtain ⟨ys, hys⟩ := List.getLast?_eq_some_iff.mp h
  have hmem : j ∈ indicesWhere P table := by
    rw [hys]
    simp
  refine ⟨(mem_indicesWhere P table j).mp hmem, ?_⟩
  intro k c hk hc
  have hkm : k ∈ indicesWhere P table := (mem_indicesWhere P table k).mpr ⟨c, hk, hc⟩
  have hpw := indicesWhere_pairwise P table
  rw [hys] at hkm hpw
  rcases List.mem_append.mp hkm with hin | hin
  · have := (List.pairwise_append.mp hpw).2.2 k hin j (List.mem_singleton_self j)
    omega
  · rw [List.mem_singleton] at hin
    omega

theorem indicesWhere_getLast_isSome (P : ManagementGroupInfo → Bool)
    (table : List ManagementGroupInfo) :
    (∃ j, (indicesWhere P table).getLast? = some j) ↔ ∃ c ∈ table, P c = true := by
  constructor
  · rintro ⟨j, hj⟩
    obtain ⟨c, hc, hP⟩ := (indicesWhere_getLast P table j hj).1
    exact ⟨c, List.getElem?_mem hc, hP⟩
  · rintro ⟨c, hc, hP⟩
    obtain ⟨n, hn⟩ := List.mem_iff_getElem?.mp hc
    have hmem : n ∈ indicesWhere P table := (mem_indicesWhere P table n).mpr ⟨c, hn, hP⟩
    cases hl : (indicesWhere P table).getLast? with
    | none =>
      rw [List.getLast?_eq_none_iff] at hl
      rw [hl] at hmem
      exact absurd hmem (List.not_mem_nil _)
    | some j => exact ⟨j, rfl⟩

/-! ## The id → index lookup: C11, C14 -/

set_option maxRecDepth 100000 in
/-- C11 (as stated, refuted): when two fetched nodes carry the same id, the node at index 0
is not indexed by the lookup: under its id the lookup holds 1, the index of the second
node. -/
theorem lookup_not_self_on_duplicate :
    ((nodeTable (ascii "t")
        [groupNode (ascii "x") (ascii "first") [],
         groupNode (ascii "x") (ascii "second") []])[0]?).map (fun N => N.Id)
      = some (mgmtGroupsPath ++ ascii "x") ∧
    (buildMaps (ascii "t")
        [groupNode (ascii "x") (ascii "first") [],
         groupNode (ascii "x") (ascii "second") []]).idToIndexMap (mgmtGroupsPath ++ ascii "x")
      = some 1 := by
  decide

/-- C11 (amended): for every fetched list and tenant id and every index `i` of the table,
the id of the node `N` at `i` is a key of the lookup built by the first loop, and the value
`j` under it is the greatest index at which the table carries that id (so `i ≤ j`); it is
`i` itself whenever no later node of the table carries the id of `N`, in particular when
the ids of the table are pairwise distinct. -/
theorem lookup_indexes_last_same_id (azureTenant : GoString)
    (value : List ManagementGroupInfo) (i : Nat) (hi : i < value.length + 1) :
    ∃ N j, (nodeTable azureTenant value)[i]? = some N ∧
      (buildMaps azureTenant value).idToIndexMap N.Id = some j ∧
      i ≤ j ∧
      (∃ c, (nodeTable azureTenant value)[j]? = some c ∧ c.Id = N.Id) ∧
      (∀ k c, (nodeTable azureTenant value)[k]? = some c → c.Id = N.Id → k ≤ j) ∧
      ((∀ k c, i < k → (nodeTable azureTenant value)[k]? = some c → c.Id ≠ N.Id) → j = i) := by
  have hlen : (nodeTable azureTenant value).length = value.length + 1 := by simp [nodeTable]
  have hit : i < (nodeTable azureTenant value).length := by omega
  have hN : (nodeTable azureTenant value)[i]? = some (nodeTable azureTenant value)[i] :=
    List.getElem?_eq_getElem hit
  obtain ⟨j, hj⟩ := (indicesWhere_getLast_isSome
      (hasId (nodeTable azureTenant value)[i].Id) (nodeTable azureTenant value)).mpr
    ⟨_, List.getElem?_mem hN, by simp [hasId]⟩
  obtain ⟨⟨c, hc, hcP⟩, hmax⟩ := indicesWhere_getLast _ _ j hj
  have hcId : c.Id = (nodeTable azureTenant value)[i].Id := by simpa [hasId] using hcP
  have hij : i ≤ j := hmax i _ hN (by simp [hasId])
  refine ⟨_, j, hN, (buildMaps_index azureTenant value _).trans hj, hij, ⟨c, hc, hcId⟩, ?_, ?_⟩
  · intro k c2 hk hc2
    exact hmax k c2 hk (by simp [hasId, hc2])
  · intro hlater
    by_contra hne
    exact hlater j c (by omega) hc hcId

/-- Witness of C11 (amended): index 0 of the table of two groups with distinct ids. -/
theorem lookup_indexes_last_same_id_witness :
    0 < [groupNode (ascii "x") (ascii "first") [],
          groupNode (ascii "y") (ascii "second") []].length + 1 ∧
    ∃ N j, (nodeTable (ascii "t")
        [groupNode (ascii "x") (ascii "first") [],
          groupNode (ascii "y") (ascii "second") []])[0]? = some N ∧
      (buildMaps (ascii "t")
        [groupNode (ascii "x") (ascii "first") [],
          groupNode (ascii "y") (ascii "second") []]).idToIndexMap N.Id = some j ∧
      0 ≤ j ∧
      (∃ c, (nodeTable (ascii "t")
        [groupNode (ascii "x") (ascii "first") [],
          groupNode (ascii "y") (ascii "second") []])[j]? = some c ∧ c.Id = N.Id) ∧
      (∀ k c, (nodeTable (ascii "t")
        [groupNode (ascii "x") (ascii "first") [],
          groupNode (ascii "y") (ascii "second") []])[k]? = some c → c.Id = N.Id → k ≤ j) ∧
      ((∀ k c, 0 < k → (nodeTable (ascii "t")
        [groupNode (ascii "x") (ascii "first") [],
          groupNode (ascii "y") (ascii "second") []])[k]? = some c → c.Id ≠ N.Id) → j = 0) :=
  ⟨by decide, lookup_indexes_last_same_id (ascii "t")
    [groupNode (ascii "x") (ascii "first") [], groupNode (ascii "y") (ascii "second") []] 0
    (by decide)⟩

/-- C14: for every fetched list and tenant id (duplicate ids allowed) the run raises no
error; the keys of the lookup built by the first loop are exactly the ids that occur in the
table; the value under a key is the greatest index at which the table carries that id; and
under the id of the root the lookup holds the index of the root, the last of the table,
even when a fetched node carries that id. -/
theorem lookup_last_write_wins (lower : Nat → Nat) (azureTenant : GoString)
    (value : List ManagementGroupInfo) :
    (∃ st, treeAndRender lower azureTenant value = some st) ∧
    (∀ id, (∃ j, (buildMaps azureTenant value).idToIndexMap id = some j) ↔
      ∃ c ∈ nodeTable azureTenant value, c.Id = id) ∧
    (∀ id j, (buildMaps azureTenant value).idToIndexMap id = some j →
      (∃ c, (nodeTable azureTenant value)[j]? = some c ∧ c.Id = id) ∧
      ∀ k c, (nodeTable azureTenant value)[k]? = some c → c.Id = id → k ≤ j) ∧
    (buildMaps azureTenant value).idToIndexMap (rootGroup azureTenant).Id
      = some value.length := by
  refine ⟨⟨_, treeAndRender_eq lower azureTenant value⟩, ?_, ?_, ?_⟩
  · intro id
    rw [buildMaps_index, indicesWhere_getLast_isSome]
    simp [hasId]
  · intro id j hj
    rw [buildMaps_index] at hj
    obtain ⟨⟨c, hc, hcP⟩, hmax⟩ := indicesWhere_getLast _ _ j hj
    refine ⟨⟨c, hc, by simpa [hasId] using hcP⟩, ?_⟩
    intro k c2 hk hc2
    exact hmax k c2 hk (by simp [hasId, hc2])
  · rw [buildMaps_index]
    have hP : hasId (rootGroup azureTenant).Id (rootGroup azureTenant) = true := by
      simp [hasId]
    simp [indicesWhere, List.enum, nodeTable, List.enumFrom_append, List.filter_append,
      List.filter_cons, hP]

set_option maxRecDepth 100000 in
/-- Witness of C14: a fetched node that carries the id of the root of tenant `t`; under
that id the lookup holds 1, the index of the root. -/
theorem lookup_last_write_wins_witness :
    (buildMaps (ascii "t") [groupNode (ascii "t") (ascii "dup") []]).idToIndexMap
        (rootGroup (ascii "t")).Id = some 1 ∧
    ((∃ c, (nodeTable (ascii "t") [groupNode (ascii "t") (ascii "dup") []])[1]? = some c ∧
        c.Id = (rootGroup (ascii "t")).Id) ∧
      ∀ k c, (nodeTable (ascii "t") [groupNode (ascii "t") (ascii "dup") []])[k]? = some c →
        c.Id = (rootGroup (ascii "t")).Id → k ≤ 1) :=
  ⟨by decide,
   (lookup_last_write_wins simpleLower (ascii "t")
      [groupNode (ascii "t") (ascii "dup") []]).2.2.1 (rootGroup (ascii "t")).Id 1
     (by decide)⟩

/-! ## The final table and the references between blocks: C15, C16 -/

/-- C15: for every fetched list of length `n` and tenant id `t`, the run ends with a table
of length `n + 1`; for every `i < n` the node at `i` has the id, name, type, display name
and parent id of the `i`-th fetched node; and the node at `n` is the synthetic root: id the
management-group path followed by `t`, management-group type, display name `TENANT_ROOT`,
empty parent id. -/
theorem table_is_fetched_then_root (lower : Nat → Nat) (azureTenant : GoString)
    (value : List ManagementGroupInfo) :
    ∃ st, treeAndRender lower azureTenant value = some st ∧
      st.groupsAndSubs.length = value.length + 1 ∧
      (∀ (i : Nat) (v : ManagementGroupInfo), value[i]? = some v →
        ∃ N : ManagementGroupInfo, st.groupsAndSubs[i]? = some N ∧ N.Id = v.Id ∧ N.Name = v.Name ∧ N.Typ = v.Typ ∧
          N.Properties.DisplayName = v.Properties.DisplayName ∧
          N.Properties.Parent.Id = v.Properties.Parent.Id) ∧
      (∃ R, st.groupsAndSubs[value.length]? = some R ∧
        R.Id = ascii "/providers/Microsoft.Management/managementGroups/" ++ azureTenant ∧
        R.Typ = TYPE_MANAGEMENT_GROUPS ∧
        R.Properties.DisplayName = ascii "TENANT_ROOT" ∧
        R.Properties.Parent.Id = []) := by
  refine ⟨_, treeAndRender_eq lower azureTenant value, ?_, ?_, ?_⟩
  · simp [nodeTable]
  · intro i v hv
    have hi : i < value.length := by
      by_contra hc
      rw [List.getElem?_eq_none (by omega)] at hv
      exact absurd hv (by simp)
    refine ⟨withChildren (buildMaps azureTenant value) v, ?_, rfl, rfl, rfl, rfl, rfl⟩
    simp only [List.getElem?_map, nodeTable, List.getElem?_append_left hi, hv, Option.map_some']
  · refine ⟨withChildren (buildMaps azureTenant value) (rootGroup azureTenant), ?_,
      rfl, rfl, rfl, rfl⟩
    simp only [List.getElem?_map, nodeTable]
    rw [List.getElem?_append_right (Nat.le_refl _)]
    simp

/-- Witness of C15: the first node of a fetched list of two. -/
theorem table_is_fetched_then_root_witness :
    ∃ st, treeAndRender simpleLower (ascii "t")
        [groupNode (ascii "g") (ascii "G one") (mgmtGroupsPath ++ ascii "t"),
          subscriptionNode (ascii "s1") (mgmtGroupsPath ++ ascii "g")] = some st ∧
      ∃ N, st.groupsAndSubs[0]? = some N ∧
        N.Id = (groupNode (ascii "g") (ascii "G one") (mgmtGroupsPath ++ ascii "t")).Id ∧
        N.Name = (groupNode (ascii "g") (ascii "G one") (mgmtGroupsPath ++ ascii "t")).Name ∧
        N.Typ = (groupNode (ascii "g") (ascii "G one") (mgmtGroupsPath ++ ascii "t")).Typ ∧
        N.Properties.DisplayName =
          (groupNode (ascii "g") (ascii "G one")
            (mgmtGroupsPath ++ ascii "t")).Properties.DisplayName ∧
        N.Properties.Parent.Id =
          (groupNode (ascii "g") (ascii "G one")
            (mgmtGroupsPath ++ ascii "t")).Properties.Parent.Id := by
  obtain ⟨st, h1, _, h3, _⟩ := table_is_fetched_then_root simpleLower (ascii "t")
    [groupNode (ascii "g") (ascii "G one") (mgmtGroupsPath ++ ascii "t"),
      subscriptionNode (ascii "s1") (mgmtGroupsPath ++ ascii "g")]
  exact ⟨st, h1, h3 0 _ rfl⟩

/-- C16: for every fetched list and tenant id and every group node `N` at index `i` of the
table, the entries between the brackets of `child_group_ids` in the block of `N` are the
quoted resource names `getDisplayName c ++ "---" ++ formatGroupId c.Id` of the group
children `c` of `N`, and for each such child the same run prints a block whose label and
`name` attribute are that resource name. -/
theorem child_entries_name_printed_blocks (lower : Nat → Nat) (azureTenant : GoString)
    (value : List ManagementGroupInfo) (i : Nat) (N : ManagementGroupInfo)
    (hN : (nodeTable azureTenant value)[i]? = some N)
    (hT : N.Typ = TYPE_MANAGEMENT_GROUPS) :
    ∃ st, treeAndRender lower azureTenant value = some st ∧
      st.out[((nodeTable azureTenant value).take i).countP isGroup]? =
        some (resourceBlock
          (getDisplayName lower N ++ ascii "---" ++ formatGroupId N.Id)
          (getDisplayName lower N ++ ascii "---" ++ formatGroupId N.Id)
          (joinEntries (((nodeTable azureTenant value).filter
            (isChildOf N.Id TYPE_SUBSCRIPTIONS)).map subscriptionEntry))
          (joinEntries (((nodeTable azureTenant value).filter
            (isChildOf N.Id TYPE_MANAGEMENT_GROUPS)).map
              (fun c => quoted (getDisplayName lower c ++ ascii "---" ++ formatGroupId c.Id))))) ∧
      ∀ c ∈ (nodeTable azureTenant value).filter (isChildOf N.Id TYPE_MANAGEMENT_GROUPS),
        ∃ accountIds childGroupIds,
          resourceBlock (getDisplayName lower c ++ ascii "---" ++ formatGroupId c.Id)
            (getDisplayName lower c ++ ascii "---" ++ formatGroupId c.Id)
            accountIds childGroupIds ∈ st.out := by
  refine ⟨_, treeAndRender_eq lower azureTenant value, ?_, ?_⟩
  · exact getElem?_filter_map_of_getElem? (blockOf lower (nodeTable azureTenant value))
      isGroup (nodeTable azureTenant value) i N hN (by simp [isGroup, hT])
  · intro c hc
    obtain ⟨hct, hcP⟩ := List.mem_filter.mp hc
    have hcT : c.Typ = TYPE_MANAGEMENT_GROUPS := by
      simp only [isChildOf, decide_eq_true_eq] at hcP
      exact hcP.2.2
    have hmem : blockOf lower (nodeTable azureTenant value) c ∈
        ((nodeTable azureTenant value).filter isGroup).map
          (blockOf lower (nodeTable azureTenant value)) :=
      List.mem_map.mpr ⟨c, List.mem_filter.mpr ⟨hct, by simp [isGroup, hcT]⟩, rfl⟩
    exact ⟨_, _, hmem⟩

set_option maxRecDepth 100000 in
/-- Witness of C16: the root of tenant `t` with the child groups `g1` and `g2`; each of the
two entries of its `child_group_ids` names a block that the run prints. -/
theorem child_entries_name_printed_blocks_witness :
    ∃ st, treeAndRender simpleLower (ascii "t")
        [groupNode (ascii "g1") (ascii "One") (mgmtGroupsPath ++ ascii "t"),
          groupNode (ascii "g2") (ascii "Two") (mgmtGroupsPath ++ ascii "t")] = some st ∧
      (∃ accountIds childGroupIds,
        resourceBlock (ascii "One---g1") (ascii "One---g1") accountIds childGroupIds ∈ st.out) ∧
      (∃ accountIds childGroupIds,
        resourceBlock (ascii "Two---g2") (ascii "Two---g2") accountIds childGroupIds ∈ st.out) := by
  obtain ⟨st, h1, _, h3⟩ := child_entries_name_printed_blocks simpleLower (ascii "t")
    [groupNode (ascii "g1") (ascii "One") (mgmtGroupsPath ++ ascii "t"),
      groupNode (ascii "g2") (ascii "Two") (mgmtGroupsPath ++ ascii "t")] 2
    (rootGroup (ascii "t")) (by decide) (by decide)
  exact ⟨st, h1,
    h3 (groupNode (ascii "g1") (ascii "One") (mgmtGroupsPath ++ ascii "t")) (by decide),
    h3 (groupNode (ascii "g2") (ascii "Two") (mgmtGroupsPath ++ ascii "t")) (by decide)⟩

end AzureMirror
